import Mathlib

/-!
Verification development for the `joi-ful-routes` repository.

The development shallowly embeds the core of the repository:

* `lib/joi-to-swagger.js` — the Joi-schema → OpenAPI schema compiler
  (`parse`, the `parseAsType` extractors, `getMinMax`, `getCaseSuffix`,
  `parseWhens`, `schemaForAlternatives`, `parseValidsAndInvalids`,
  `getRefValue`);
* the document assembler (`schemaToSwagger`, `buildSwaggerComponents`,
  `buildSwaggerPaths`, `collectParameters`, `buildRequestBody`,
  `buildResponses`, `getSchemaNameFromObj`).

JavaScript objects are modelled as ordered association lists with the
insertion-order semantics of property assignment; JavaScript exceptions
are modelled with `Except`; object identity (used by the assembler's
`Map` keyed on Joi objects) is modelled by tagging nodes with a numeric
identity.  Recursive compilation is made total with a fuel argument;
every theorem quantifies over (sufficient) fuel.
-/

namespace JoiFul

/-- A JSON-like runtime value (numbers restricted to integers, which is
all the embedded code ever produces or compares). -/
inductive Json where
  | null : Json
  | bool : Bool → Json
  | num : Int → Json
  | str : String → Json
  | arr : List Json → Json
  | obj : List (String × Json) → Json
deriving Repr

mutual
/-- Decidable structural equality on `Json` (deep equality; used to model
both lodash `isEqual` and `JSON.stringify`-string comparison, since for
ordered association lists canonical serialisations agree exactly when the
values are equal). -/
def Json.beq : Json → Json → Bool
  | .null, .null => true
  | .bool a, .bool b => a == b
  | .num a, .num b => a == b
  | .str a, .str b => a == b
  | .arr a, .arr b => Json.beqList a b
  | .obj a, .obj b => Json.beqPairs a b
  | _, _ => false

def Json.beqList : List Json → List Json → Bool
  | [], [] => true
  | a :: as, b :: bs => Json.beq a b && Json.beqList as bs
  | _, _ => false

def Json.beqPairs : List (String × Json) → List (String × Json) → Bool
  | [], [] => true
  | (k, a) :: as, (l, b) :: bs => k == l && Json.beq a b && Json.beqPairs as bs
  | _, _ => false
end

mutual
theorem Json.beq_refl : ∀ j : Json, Json.beq j j = true
  | .null => rfl
  | .bool b => by simp [Json.beq]
  | .num n => by simp [Json.beq]
  | .str s => by simp [Json.beq]
  | .arr es => by simp [Json.beq, Json.beqList_refl es]
  | .obj ms => by simp [Json.beq, Json.beqPairs_refl ms]

theorem Json.beqList_refl : ∀ es : List Json, Json.beqList es es = true
  | [] => rfl
  | e :: es => by simp [Json.beqList, Json.beq_refl e, Json.beqList_refl es]

theorem Json.beqPairs_refl : ∀ ms : List (String × Json), Json.beqPairs ms ms = true
  | [] => rfl
  | (k, v) :: ms => by
      simp [Json.beqPairs, Json.beq_refl v, Json.beqPairs_refl ms]
end

mutual
theorem Json.eq_of_beq : ∀ {a b : Json}, Json.beq a b = true → a = b
  | .null, .null, _ => rfl
  | .bool a, .bool b, h => by simpa [Json.beq] using h
  | .num a, .num b, h => by simpa [Json.beq] using h
  | .str a, .str b, h => by simpa [Json.beq] using h
  | .arr a, .arr b, h => by
      simp only [Json.beq] at h
      exact congrArg Json.arr (Json.eqList_of_beq h)
  | .obj a, .obj b, h => by
      simp only [Json.beq] at h
      exact congrArg Json.obj (Json.eqPairs_of_beq h)

theorem Json.eqList_of_beq : ∀ {a b : List Json}, Json.beqList a b = true → a = b
  | [], [], _ => rfl
  | x :: xs, y :: ys, h => by
      simp only [Json.beqList, Bool.and_eq_true] at h
      exact congrArg₂ List.cons (Json.eq_of_beq h.1) (Json.eqList_of_beq h.2)

theorem Json.eqPairs_of_beq :
    ∀ {a b : List (String × Json)}, Json.beqPairs a b = true → a = b
  | [], [], _ => rfl
  | (k, x) :: xs, (l, y) :: ys, h => by
      simp only [Json.beqPairs, Bool.and_eq_true, beq_iff_eq] at h
      have hk : k = l := h.1.1
      have hx : x = y := Json.eq_of_beq h.1.2
      have hxs : xs = ys := Json.eqPairs_of_beq h.2
      simp [hk, hx, hxs]
end

instance : DecidableEq Json := fun a b =>
  if h : Json.beq a b = true then
    .isTrue (Json.eq_of_beq h)
  else
    .isFalse (fun he => h (he ▸ Json.beq_refl a))

/-- JavaScript truthiness of a `Json` value. -/
def jsTruthy : Json → Bool
  | .null => false
  | .bool b => b
  | .num n => n ≠ 0
  | .str s => s ≠ ""
  | .arr _ => true
  | .obj _ => true

/-- Truthiness of an optional string flag (`undefined` and `""` are falsy). -/
def strTruthy : Option String → Bool
  | none => false
  | some s => s ≠ ""

/-! ### JavaScript object semantics: ordered association lists

Property assignment replaces an existing key in place and otherwise
appends; `delete` removes the key; `Object.assign` folds assignment over
the source's entries in order. -/

/-- `o[k] = v` on an ordered association list: replace an existing key
in place, otherwise append (JS property-assignment order semantics; keys
are unique in every object the embedded code builds). -/
def setKV {α : Type} : List (String × α) → String → α → List (String × α)
  | [], k, v => [(k, v)]
  | p :: rest, k, v =>
      if p.1 = k then (k, v) :: rest else p :: setKV rest k v

/-- Property lookup `o[k]`. -/
def getKV {α : Type} (o : List (String × α)) (k : String) : Option α :=
  (o.find? (fun p => p.1 = k)).map (fun p => p.2)

/-- `delete o[k]`. -/
def delKV {α : Type} (o : List (String × α)) (k : String) :
    List (String × α) :=
  o.filter (fun p => p.1 ≠ k)

/-- A compiled OpenAPI schema object, as an ordered association list. -/
abbrev SwaggerObj := List (String × Json)

/-- `Object.assign dst src`. -/
def objAssign (dst src : SwaggerObj) : SwaggerObj :=
  src.foldl (fun acc p => setKV acc p.1 p.2) dst

/-- lodash `uniqWith(_, isEqual)`: keep the first occurrence of each
deep-equality class, preserving order. -/
def uniqJson (l : List SwaggerObj) : List SwaggerObj :=
  l.foldl (fun acc x => if acc.any (fun y => y = x) then acc else acc ++ [x]) []

/-! ### The component registry threaded through compilation

`components` objects are plain JS objects `{bucket: {name: schema}}`,
written with lodash `set(components, [bucket, name], schema)` and merged
with lodash `merge`.  Merging is modelled as per-bucket, per-name
right-biased overwrite (the buckets only ever hold whole compiled schema
objects, and the code only ever tests presence of a name). -/

abbrev Bucket := List (String × SwaggerObj)
abbrev Components := List (String × Bucket)

/-- `get(components, [bucket, name])`. -/
def compGet (c : Components) (bucket name : String) : Option SwaggerObj :=
  match getKV c bucket with
  | some b => getKV b name
  | none => none

/-- lodash `set(components, [bucket, name], v)`. -/
def compSet (c : Components) (bucket name : String) (v : SwaggerObj) :
    Components :=
  match getKV c bucket with
  | some b => setKV c bucket (setKV b name v)
  | none => setKV c bucket [(name, v)]

/-- lodash `merge(dst, src)` restricted to two-level component maps. -/
def compMerge (dst src : Components) : Components :=
  src.foldl
    (fun acc (p : String × Bucket) =>
      match getKV acc p.1 with
      | some b =>
          setKV acc p.1 (p.2.foldl (fun bk q => setKV bk q.1 q.2) b)
      | none => setKV acc p.1 p.2)
    dst

/-! ### The schema-node data model (Joi internals used by the compiler) -/

/-- A rule's `limit` argument: either a concrete number or a Joi
cross-field reference (`Joi.ref`). -/
inductive LimitArg where
  | num (n : Int)
  | ref (name : String)
deriving DecidableEq, Repr

/-- One entry of a node's `_rules` list, with the argument fields the
compiler reads (`args.limit`, `args.sign`, `args.direction`,
`args.regex` — the last stored as the regex's `toString()` form). -/
structure Rule where
  name : String
  argLimit : Option LimitArg := none
  argSign : Option String := none
  argDirection : Option String := none
  argRegex : Option String := none
deriving Repr

/-- The default value recorded in `_flags.default`: either a serialisable
value or a function reference. -/
inductive JsDefault where
  | value (v : Json)
  | func
deriving Repr

/-- The `_flags` record of a node (only the flags the compiler reads). -/
structure Flags where
  presence : Option String := none
  label : Option String := none
  description : Option String := none
  defaultV : Option JsDefault := none
  encoding : Option String := none
  formatF : Option String := none
  unknown : Option Bool := none
  only : Bool := false
  matchMode : Option String := none
deriving Repr

/-- The non-recursive part of a schema node: its `type`, `_rules`,
`_flags`, valid/invalid value sets, examples, the
`_preferences.convert === false` test, and the flattened metadata object
(`Object.assign({}, ...$_terms.metas)`, represented directly in its
flattened form). -/
structure JoiBase where
  type : String
  rules : List Rule := []
  flags : Flags := {}
  valids : Option (List Json) := none
  invalids : Option (List Json) := none
  examples : Option (List Json) := none
  convertFalse : Bool := false
  metaClassName : Option String := none
  metaClassTarget : Option String := none
  metaSwaggerOverride : Bool := false
  metaSwagger : Option SwaggerObj := none
  metaRefValues : List (String × Json) := []
  metaSwaggerType : Option String := none
  metaBaseType : Option String := none
deriving Repr

mutual
/-- A Joi schema node: the non-recursive `base` plus the recursive terms
(`metadata.schemaOverride`, `$_terms.keys`, `$_terms.patterns` (each
entry's `.rule`), `$_terms.items`, `$_terms.whens`, `$_terms.matches`). -/
inductive JoiSchema where
  | mk (base : JoiBase)
       (schemaOverride : Option JoiSchema)
       (keys : List (String × JoiSchema))
       (patterns : List (Option JoiSchema))
       (items : List JoiSchema)
       (whens : Option (List WhenClause))
       (matchTerms : List MatchClause)

/-- One entry of `$_terms.whens`: `{then?, otherwise?, switch}`. -/
inductive WhenClause where
  | mk (thenS : Option JoiSchema) (otherwiseS : Option JoiSchema)
       (switch : List SwitchCase)

/-- One `switch` branch of a `when`: `{then?, otherwise?}`. -/
inductive SwitchCase where
  | mk (thenS : Option JoiSchema) (otherwiseS : Option JoiSchema)

/-- One entry of an alternatives node's `$_terms.matches`:
either condition-style (`ref` set, with `then`/`otherwise`/`switch`) or a
plain alternative carrying `schema`. -/
inductive MatchClause where
  | mk (isRef : Bool) (schema : Option JoiSchema)
       (thenS : Option JoiSchema) (otherwiseS : Option JoiSchema)
       (switch : List SwitchCase)
end

namespace JoiSchema

def base : JoiSchema → JoiBase
  | .mk b _ _ _ _ _ _ => b

def schemaOverride : JoiSchema → Option JoiSchema
  | .mk _ o _ _ _ _ _ => o

def keys : JoiSchema → List (String × JoiSchema)
  | .mk _ _ k _ _ _ _ => k

def patterns : JoiSchema → List (Option JoiSchema)
  | .mk _ _ _ p _ _ _ => p

def items : JoiSchema → List JoiSchema
  | .mk _ _ _ _ i _ _ => i

def whens : JoiSchema → Option (List WhenClause)
  | .mk _ _ _ _ _ w _ => w

def matchTerms : JoiSchema → List MatchClause
  | .mk _ _ _ _ _ _ m => m

end JoiSchema

namespace WhenClause

def thenS : WhenClause → Option JoiSchema
  | .mk t _ _ => t

def otherwiseS : WhenClause → Option JoiSchema
  | .mk _ o _ => o

def switch : WhenClause → List SwitchCase
  | .mk _ _ s => s

end WhenClause

namespace SwitchCase

def thenS : SwitchCase → Option JoiSchema
  | .mk t _ => t

def otherwiseS : SwitchCase → Option JoiSchema
  | .mk _ o => o

end SwitchCase

namespace MatchClause

def isRef : MatchClause → Bool
  | .mk r _ _ _ _ => r

def schema : MatchClause → Option JoiSchema
  | .mk _ s _ _ _ => s

def thenS : MatchClause → Option JoiSchema
  | .mk _ _ t _ _ => t

def otherwiseS : MatchClause → Option JoiSchema
  | .mk _ _ _ o _ => o

def switch : MatchClause → List SwitchCase
  | .mk _ _ _ _ s => s

end MatchClause

/-! ### The compiler (`lib/joi-to-swagger.js`) -/

/-- The fatal errors the compiler and assembler can raise. -/
inductive JErr where
  | noSchema
  | nestedOverride
  | unrecognizedType (t : String)
  | missingLabel
  | labelConflict (name : String)
  | typeError (msg : String)
  | outOfFuel
deriving DecidableEq, Repr

/-- The value of a `parse` call: the sentinel `false` (for
`joi.forbidden()` nodes) or `{swagger, components}`. -/
inductive ParseOutcome where
  | forbidden
  | result (swagger : SwaggerObj) (components : Components)
deriving DecidableEq, Repr

/-- The type of the recursive-compilation callback handed to the
composite extractors (a `parse` application with the
`isSchemaOverride` argument at its default `false`). -/
abbrev ParseFn := Option JoiSchema → Components → Except JErr ParseOutcome

/-- `refDef`: a `$ref` into a components bucket. -/
def refDef (type name : String) : SwaggerObj :=
  [("$ref", .str ("#/components/" ++ type ++ "/" ++ name))]

/-- `find(schema._rules, {name})`: first rule with the given name. -/
def findRule (rules : List Rule) (n : String) : Option Rule :=
  rules.find? (fun r => r.name = n)

/-- The `patterns` table of predefined regex sources. -/
structure PatternsTable where
  alphanum : String
  alphanumLower : String
  alphanumUpper : String
  token : String

def patterns : PatternsTable :=
  { alphanum := "^[a-zA-Z0-9]*$"
    alphanumLower := "^[a-z0-9]*$"
    alphanumUpper := "^[A-Z0-9]*$"
    token := "^[a-zA-Z0-9_]*$" }

/-- Dynamic lookup `patterns[key]` (`none` = `undefined`). -/
def patternsLookup : String → Option String
  | "alphanum" => some patterns.alphanum
  | "alphanumLower" => some patterns.alphanumLower
  | "alphanumUpper" => some patterns.alphanumUpper
  | "token" => some patterns.token
  | _ => none

/-- `getCaseSuffix`: 'Lower'/'Upper'/'' from a `case` rule's direction. -/
def getCaseSuffix (schema : JoiSchema) : String :=
  match findRule schema.base.rules "case" with
  | some caseRule =>
      if caseRule.argDirection = some "lower" then "Lower"
      else if caseRule.argDirection = some "upper" then "Upper"
      else ""
  | none => ""

/-- A raw rule `limit` argument as stored into the output by `getMinMax`
(a Joi ref object passes through unresolved there). -/
def limitJson : Option LimitArg → Json
  | some (.num n) => .num n
  | some (.ref r) => .obj [("ref", .str r)]
  | none => .null

/-- `getMinMax(schema, suffix)`: fold the `min`/`max`/`length` rules into
`min<suffix>`/`max<suffix>` fields (`length` sets both). -/
def getMinMax (schema : JoiSchema) (suffix : String) : SwaggerObj :=
  schema.base.rules.foldl
    (fun sw rule =>
      let sw := if rule.name = "min" then
          setKV sw ("min" ++ suffix) (limitJson rule.argLimit) else sw
      let sw := if rule.name = "max" then
          setKV sw ("max" ++ suffix) (limitJson rule.argLimit) else sw
      if rule.name = "length" then
        setKV (setKV sw ("min" ++ suffix) (limitJson rule.argLimit))
          ("max" ++ suffix) (limitJson rule.argLimit)
      else sw)
    []

/-- `getRefValue(ref, schema, fallback)`: resolve a cross-field reference
through `metadata.refValues` (JS `||` falls back on falsy values). -/
def getRefValue (refName : String) (schema : JoiSchema) (fallback : Json) :
    Json :=
  match getKV schema.base.metaRefValues refName with
  | some v => if jsTruthy v then v else fallback
  | none => fallback

/-- A number rule's limit: a concrete value, or a ref resolved with
fallback `0` (`isRef(limit) ? getRefValue(limit, schema, 0) : limit`). -/
def resolveLimit (r : Rule) (schema : JoiSchema) : Json :=
  match r.argLimit with
  | some (.ref name) => getRefValue name schema (Json.num 0)
  | some (.num n) => .num n
  | none => .null

/-- lodash `isNumber`. -/
def isNumberJ : Json → Bool
  | .num _ => true
  | _ => false

/-- lodash `isString`. -/
def isStringJ : Json → Bool
  | .str _ => true
  | _ => false

/-- `parseValidsAndInvalids(schema, filterFunc)`. -/
def parseValidsAndInvalids (schema : JoiSchema) (filter : Json → Bool) :
    SwaggerObj :=
  let sw : SwaggerObj := []
  let sw := match schema.base.valids with
    | some vs =>
        let valids := vs.filter filter
        if schema.base.flags.only && !valids.isEmpty then
          setKV sw "enum" (.arr valids)
        else sw
    | none => sw
  match schema.base.invalids with
  | some vs =>
      let invalids := vs.filter filter
      if !invalids.isEmpty then
        setKV sw "not" (.obj [("enum", .arr invalids)])
      else sw
  | none => sw

/-- `parseAsType.number`. -/
def parseAsTypeNumber (schema : JoiSchema) : SwaggerObj :=
  let sw : SwaggerObj :=
    if (findRule schema.base.rules "integer").isSome then
      [("type", .str "integer")]
    else
      let fmt :=
        if (findRule schema.base.rules "precision").isSome then "double"
        else "float"
      [("type", .str "number"), ("format", .str fmt)]
  let sw := match findRule schema.base.rules "sign" with
    | some r =>
        if r.argSign = some "positive" then setKV sw "minimum" (.num 1)
        else if r.argSign = some "negative" then setKV sw "maximum" (.num (-1))
        else sw
    | none => sw
  let sw := match findRule schema.base.rules "min" with
    | some r => setKV sw "minimum" (resolveLimit r schema)
    | none => sw
  let sw := match findRule schema.base.rules "max" with
    | some r => setKV sw "maximum" (resolveLimit r schema)
    | none => sw
  objAssign sw (parseValidsAndInvalids schema isNumberJ)

/-- The shared shape of the source's `email`/`isoDate`/`guid` blocks:
set `swagger.format` and then `if (swagger.pattern) delete
swagger.pattern`. -/
def clearPatternFor (fmt : String) (sw : SwaggerObj) : SwaggerObj :=
  let sw := setKV sw "format" (.str fmt)
  match getKV sw "pattern" with
  | some pv => if jsTruthy pv then delKV sw "pattern" else sw
  | none => sw

/-- `parseAsType.string`.  Constraint order is the source's: `alphanum`,
`token`, `email`, `isoDate`, `guid`, then the explicit `pattern` rule,
then `getMinMax` and the enum fields. -/
def parseAsTypeString (schema : JoiSchema) : SwaggerObj :=
  let sw : SwaggerObj := [("type", .str "string")]
  let sw :=
    if (findRule schema.base.rules "alphanum").isSome then
      let strict := schema.base.convertFalse
      match patternsLookup
          ("alphanum" ++ (if strict then getCaseSuffix schema else "")) with
      | some pat => setKV sw "pattern" (.str pat)
      | none => sw
    else sw
  let sw :=
    if (findRule schema.base.rules "token").isSome then
      match patternsLookup "token" with
      | some pat => setKV sw "pattern" (.str pat)
      | none => sw
    else sw
  let sw :=
    if (findRule schema.base.rules "email").isSome then
      clearPatternFor "email" sw
    else sw
  let sw :=
    if (findRule schema.base.rules "isoDate").isSome then
      clearPatternFor "date-time" sw
    else sw
  let sw :=
    if (findRule schema.base.rules "guid").isSome then
      clearPatternFor "uuid" sw
    else sw
  let sw := match findRule schema.base.rules "pattern" with
    | some r =>
        -- `pattern.args.regex.toString().slice(1, -1)` strips the slashes
        setKV sw "pattern" (.str (((r.argRegex.getD "").drop 1).dropRight 1))
    | none => sw
  let sw := objAssign sw (getMinMax schema "Length")
  objAssign sw (parseValidsAndInvalids schema isStringJ)

/-- `parseAsType.binary`. -/
def parseAsTypeBinary (schema : JoiSchema) : SwaggerObj :=
  let sw : SwaggerObj := [("type", .str "string"), ("format", .str "binary")]
  let sw :=
    if schema.base.flags.encoding = some "base64" then
      setKV sw "format" (.str "byte")
    else sw
  objAssign sw (getMinMax schema "Length")

/-- `parseAsType.date`. -/
def parseAsTypeDate (schema : JoiSchema) : SwaggerObj :=
  let sw : SwaggerObj := [("type", .str "string"), ("format", .str "date-time")]
  if schema.base.flags.formatF = some "YYYY-MM-DD" then
    setKV sw "format" (.str "date")
  else sw

/-- `parseAsType.boolean`. -/
def parseAsTypeBoolean (_schema : JoiSchema) : SwaggerObj :=
  [("type", .str "boolean")]

/-- `parseAsType.any`. -/
def parseAsTypeAny (schema : JoiSchema) : SwaggerObj :=
  let sw : SwaggerObj :=
    if schema.base.metaSwaggerType = some "file" then
      [("type", .str "file"), ("in", .str "formData")]
    else []
  objAssign sw (parseValidsAndInvalids schema (fun j => isStringJ j || isNumberJ j))

/-- Helper for collecting the optional branches pushed by the source's
`if (w.then) alternatives.push(w.then)` pattern. -/
def optBranch : Option JoiSchema → List (Option JoiSchema)
  | some s => [some s]
  | none => []

/-- The branches contributed by a list of `switch` cases, in order. -/
def switchBranches (cases : List SwitchCase) : List (Option JoiSchema) :=
  cases.foldl
    (fun acc s => acc ++ optBranch s.thenS ++ optBranch s.otherwiseS) []

/-- The flattened, ordered branch list of a `$_terms.whens` list. -/
def whenBranches (ws : List WhenClause) : List (Option JoiSchema) :=
  ws.foldl
    (fun acc w =>
      acc ++ optBranch w.thenS ++ optBranch w.otherwiseS ++
        switchBranches w.switch)
    []

/-- The flattened alternative list of an alternatives node's
`$_terms.matches` (a non-`ref` match pushes its `schema` field as-is). -/
def matchAlternatives (ms : List MatchClause) : List (Option JoiSchema) :=
  ms.foldl
    (fun acc m =>
      if m.isRef then
        acc ++ optBranch m.thenS ++ optBranch m.otherwiseS ++
          switchBranches m.switch
      else acc ++ [m.schema])
    []

/-- The body of the `schemaForAlternatives` loop: compile one
alternative against the merged component view, drop a `false` result,
mark a required branch with `x-required`, and accumulate components. -/
def altFoldStep (p : ParseFn) (existing : Components)
    (st : List SwaggerObj × Components) (alt : Option JoiSchema) :
    Except JErr (List SwaggerObj × Components) := do
  let (acc, nbr) := st
  match ← p alt (compMerge (compMerge [] existing) nbr) with
  | .forbidden => pure (acc, nbr) -- swagger is falsy if joi.forbidden()
  | .result sw comps =>
      let required : Bool := match alt with
        | some a => a.base.flags.presence = some "required"
        | none => false
      let sw := if required then setKV sw "x-required" (.bool true) else sw
      pure (acc ++ [sw], compMerge nbr comps)

/-- `schemaForAlternatives`: compile each alternative in order, drop
`false` results, accumulate new components, deduplicate with
`uniqWith(_, isEqual)`, and wrap the survivors in the given mode. -/
def schemaForAlternatives (p : ParseFn) (alternatives : List (Option JoiSchema))
    (existing newByRef : Components) (mode : String) :
    Except JErr (SwaggerObj × Components) := do
  let (swaggers, newByRef) ←
    alternatives.foldlM (altFoldStep p existing) ([], newByRef)
  let swaggers := uniqJson swaggers
  let out : SwaggerObj :=
    if swaggers.length > 0 then [(mode, Json.arr (swaggers.map Json.obj))]
    else []
  pure (out, newByRef)

/-- `parseWhens`: mode `anyOf` for more than one raw `when` clause, else
`oneOf`; flatten every branch and defer to `schemaForAlternatives`. -/
def parseWhens (p : ParseFn) (schema : JoiSchema)
    (existing newByRef : Components) : Except JErr (SwaggerObj × Components) :=
  let whens := schema.whens.getD []
  let mode := if whens.length > 1 then "anyOf" else "oneOf"
  schemaForAlternatives p (whenBranches whens) existing newByRef mode

/-- `parseAsType.alternatives`. -/
def parseAsTypeAlternatives (p : ParseFn) (schema : JoiSchema)
    (existing newByRef : Components) : Except JErr (SwaggerObj × Components) :=
  let mode := (schema.base.flags.matchMode.getD "any") ++ "Of"
  schemaForAlternatives p (matchAlternatives schema.matchTerms)
    existing newByRef mode

/-- The body of the `parseAsType.array` items loop: compile one item
alternative, drop a `false` result, accumulate components. -/
def arrayItemStep (p : ParseFn) (existing : Components)
    (st : List SwaggerObj × Components) (it : JoiSchema) :
    Except JErr (List SwaggerObj × Components) := do
  let (acc, nbr) := st
  match ← p (some it) (compMerge (compMerge [] existing) nbr) with
  | .forbidden => pure (acc, nbr) -- swagger is falsy if joi.forbidden()
  | .result sw comps => pure (acc ++ [sw], compMerge nbr comps)

/-- `parseAsType.array`. -/
def parseAsTypeArray (p : ParseFn) (schema : JoiSchema)
    (existing newByRef : Components) :
    Except JErr (SwaggerObj × Components) := do
  let mode := "oneOf"
  let (swaggers, newByRef) ←
    schema.items.foldlM (arrayItemStep p existing) ([], newByRef)
  let swaggers := uniqJson swaggers
  let openapi : SwaggerObj :=
    [("type", .str "array"),
     ("items", .obj [(mode, Json.arr (swaggers.map Json.obj))])]
  let openapi :=
    if swaggers.length ≤ 1 then
      -- `openapi.items = get(swaggers, [0]) || {}`
      setKV openapi "items"
        (match swaggers.head? with
         | some s => .obj s
         | none => .obj [])
    else openapi
  let openapi := objAssign openapi (getMinMax schema "Items")
  let openapi :=
    if (findRule schema.base.rules "unique").isSome then
      setKV openapi "uniqueItems" (.bool true)
    else openapi
  pure (openapi, newByRef)

/-- The state threaded through the `parseAsType.object` children loop:
accumulated `requireds`, `properties`, the mutated `newComponentsByRef`
and `combinedComponents`. -/
abbrev ObjFoldState :=
  List String × List (String × Json) × Components × Components

/-- The body of the `parseAsType.object` children loop: a child
compiling to `false` is omitted from `properties` and from `required`;
otherwise its schema is recorded and its key pushed onto `required`
when its own presence flag is `required`. -/
def objChildStep (p : ParseFn) (st : ObjFoldState)
    (child : String × JoiSchema) : Except JErr ObjFoldState := do
  let (reqs, props, nbr, comb) := st
  let (key, childSchema) := child
  match ← p (some childSchema) comb with
  | .forbidden => pure (reqs, props, nbr, comb) -- omitted entirely
  | .result sw comps =>
      let nbr := compMerge nbr comps
      let comb := compMerge comb comps
      let props := setKV props key (.obj sw)
      let reqs :=
        if childSchema.base.flags.presence = some "required" then
          reqs ++ [key]
        else reqs
      pure (reqs, props, nbr, comb)

/-- The body of the `$_terms.patterns` loop (run only when the node has
no explicit children): the last surviving compiled pattern rule becomes
`additionalProperties`. -/
def objPatternStep (p : ParseFn) (st : SwaggerObj × Components × Components)
    (pat : Option JoiSchema) :
    Except JErr (SwaggerObj × Components × Components) := do
  let (ap, nbr, comb) := st
  match pat with
  | some rule => do
      match ← p (some rule) comb with
      | .forbidden => pure (ap, nbr, comb)
      | .result sw comps =>
          pure (sw, compMerge nbr comps, compMerge comb comps)
  | none => pure (ap, nbr, comb)

/-- The tail of `parseAsType.object`: assemble the compiled object from
the accumulated `requireds`/`properties`/`additionalProperties`
(`required` only when non-empty; `additionalProperties: false` unless
the unknown flag is `true`, overwritten by a non-empty compiled key
pattern). -/
def objBuildSwagger (schema : JoiSchema) (requireds : List String)
    (properties : List (String × Json)) (additionalProperties : SwaggerObj) :
    SwaggerObj :=
  let swagger : SwaggerObj :=
    [("type", .str "object"), ("properties", .obj properties)]
  let swagger :=
    if !requireds.isEmpty then
      setKV swagger "required" (.arr (requireds.map Json.str))
    else swagger
  let swagger :=
    if schema.base.flags.unknown ≠ some true then
      setKV swagger "additionalProperties" (.bool false)
    else swagger
  if !additionalProperties.isEmpty then
    setKV swagger "additionalProperties" (.obj additionalProperties)
  else swagger

/-- `parseAsType.object`. -/
def parseAsTypeObject (p : ParseFn) (schema : JoiSchema)
    (existing newByRef : Components) :
    Except JErr (SwaggerObj × Components) := do
  let combined := compMerge (compMerge [] existing) newByRef
  let children := schema.keys
  let (requireds, properties, newByRef, combined) ←
    children.foldlM (objChildStep p) ([], [], newByRef, combined)
  let (additionalProperties, newByRef) ←
    if children.isEmpty then do
      let (ap, nbr, _) ←
        schema.patterns.foldlM (objPatternStep p) ([], newByRef, combined)
      pure (ap, nbr)
    else pure (([] : SwaggerObj), newByRef)
  pure (objBuildSwagger schema requireds properties additionalProperties,
    newByRef)

/-- The `parseAsType[type]` dispatch; an unknown type is the fatal
`'${type} is not a recognized Joi type.'` error.  The composite
extractors receive the freshly created (empty) `components` object. -/
def parseDispatch (p : ParseFn) (type : String) (schema : JoiSchema)
    (existing : Components) : Except JErr (SwaggerObj × Components) :=
  if type = "number" then .ok (parseAsTypeNumber schema, [])
  else if type = "string" then .ok (parseAsTypeString schema, [])
  else if type = "binary" then .ok (parseAsTypeBinary schema, [])
  else if type = "date" then .ok (parseAsTypeDate schema, [])
  else if type = "boolean" then .ok (parseAsTypeBoolean schema, [])
  else if type = "alternatives" then parseAsTypeAlternatives p schema existing []
  else if type = "array" then parseAsTypeArray p schema existing []
  else if type = "object" then parseAsTypeObject p schema existing []
  else if type = "any" then .ok (parseAsTypeAny schema, [])
  else .error (.unrecognizedType type)

/-- The body of `parse` after the schema-override step: the
swagger-override and known-className short-circuits, the `forbidden`
sentinel, type dispatch, `when` expansion, and the trailing field
attachments, ending in `getReturnValue`. -/
def parseBody (p : ParseFn) (schema : JoiSchema) (existing : Components) :
    Except JErr ParseOutcome :=
  let metaDefName := schema.base.metaClassName
  let metaDefType := schema.base.metaClassTarget.getD "schemas"
  let getReturnValue : SwaggerObj → Components → ParseOutcome :=
    fun swagger components =>
      match metaDefName with
      | some n =>
          .result (refDef metaDefType n) (compSet components metaDefType n swagger)
      | none => .result swagger components
  let rest : Except JErr ParseOutcome := do
    if schema.base.flags.presence = some "forbidden" then
      pure .forbidden
    else do
      -- `meta(schema, 'baseType') || schema.type`
      let type := schema.base.metaBaseType.getD schema.base.type
      let (swagger, components) ← parseDispatch p type schema existing
      let (swagger, components) ←
        match schema.whens with
        | some _ => do
            let (w, comps) ← parseWhens p schema existing components
            pure (objAssign swagger w, comps)
        | none => pure (swagger, components)
      let swagger :=
        if (match schema.base.valids with
            | some vs => vs.contains Json.null
            | none => false) then
          setKV swagger "nullable" (.bool true)
        else swagger
      let swagger := match schema.base.flags.description with
        | some d => if d ≠ "" then setKV swagger "description" (.str d) else swagger
        | none => swagger
      let swagger := match schema.base.examples with
        | some [e] => setKV swagger "example" e
        | some es => setKV swagger "examples" (.arr es)
        | none => swagger
      let swagger := match schema.base.flags.label with
        | some l => if l ≠ "" then setKV swagger "title" (.str l) else swagger
        | none => swagger
      -- `(defaultValue || typeof defaultValue === 'boolean') &&
      --  typeof defaultValue !== 'function'`
      let swagger := match schema.base.flags.defaultV with
        | some (.value v) =>
            if jsTruthy v || (match v with | .bool _ => true | _ => false) then
              setKV swagger "default" v
            else swagger
        | some .func => swagger
        | none => swagger
      let swagger := match schema.base.metaSwagger with
        | some ovr => objAssign swagger ovr
        | none => swagger
      pure (getReturnValue swagger components)
  match schema.base.metaSwagger, schema.base.metaSwaggerOverride with
  | some ovr, true => .ok (getReturnValue ovr [])
  | _, _ =>
    match metaDefName with
    | some n =>
        if (compGet existing metaDefType n).isSome then
          .ok (.result (refDef metaDefType n) [])
        else rest
    | none => rest

/-- `parse(schema, existingComponents, isSchemaOverride)`, made total
with a fuel argument that bounds the recursion depth. -/
def parse : Nat → Option JoiSchema → Components → Bool → Except JErr ParseOutcome
  | 0, _, _, _ => .error .outOfFuel
  | _ + 1, none, _, _ => .error .noSchema
  | fuel + 1, some schema, existing, isSchemaOverride =>
    match schema.schemaOverride with
    | some ovr =>
        if isSchemaOverride then .error .nestedOverride
        else parse fuel (some ovr) existing true
    | none => parseBody (fun s c => parse fuel s c false) schema existing

instance {ε α : Type} [DecidableEq ε] [DecidableEq α] :
    DecidableEq (Except ε α)
  | .ok a, .ok b =>
      if h : a = b then .isTrue (by rw [h])
      else .isFalse (fun he => h (by cases he; rfl))
  | .error a, .error b =>
      if h : a = b then .isTrue (by rw [h])
      else .isFalse (fun he => h (by cases he; rfl))
  | .ok _, .error _ => .isFalse (fun he => Except.noConfusion he)
  | .error _, .ok _ => .isFalse (fun he => Except.noConfusion he)

/-! ### The document assembler (`schemaToSwagger` and its helpers) -/

/-- Generic association-list lookup (for the assembler's `Map`s keyed on
identities and canonical shapes). -/
def mapGet {κ α : Type} [DecidableEq κ] (m : List (κ × α)) (k : κ) :
    Option α :=
  (m.find? (fun p => p.1 = k)).map (fun p => p.2)

/-- Generic association-list insertion (JS `Map.set`). -/
def mapSet {κ α : Type} [DecidableEq κ] :
    List (κ × α) → κ → α → List (κ × α)
  | [], k, v => [(k, v)]
  | p :: rest, k, v =>
      if p.1 = k then (k, v) :: rest else p :: mapSet rest k v

/-- A Joi schema together with its JavaScript object identity (the
assembler's `schemaMap` is a `Map` keyed on the object reference). -/
structure JoiRef where
  id : Nat
  schema : JoiSchema

/-- `swaggerComponents.schemas`: values may be `undefined` (`none`) when
a top-level component compiled to the `false` sentinel and the
destructured `.swagger` was `undefined`. -/
abbrev SchemasObj := List (String × Option SwaggerObj)

/-- `Map<JoiObject, schemaName>` keyed on object identity. -/
abbrev SchemaMap := List (Nat × String)

/-- `Map<stringifiedSwaggerSchema, schemaName>`; the canonical string of
an ordered schema object is faithfully represented by the `Json` value
itself (`none` = `JSON.stringify(undefined)`). -/
abbrev ShapeMap := List (Option Json × String)

/-- The `.swagger` field of a `parse` result (destructuring the `false`
sentinel yields `undefined`). -/
def outcomeSwagger : ParseOutcome → Option SwaggerObj
  | .forbidden => none
  | .result sw _ => some sw

/-- `String.prototype.startsWith`, modelled over the character lists so
that it evaluates by kernel reduction. -/
def strStartsWith (s pre : String) : Bool :=
  pre.data.isPrefixOf s.data

/-- JavaScript string coercion of a value used as an object key. -/
def jsonKeyString : Json → String
  | .str s => s
  | .num n => toString n
  | .bool b => if b then "true" else "false"
  | .null => "null"
  | .arr _ => ""
  | .obj _ => "[object Object]"

/-- `getSchemaNameFromObj(joiSchema, schemasObj, schemaMap,
convertedSchemasMap)`: the reference resolver.  Returns the chosen name
together with the updated registry state. -/
def getSchemaNameFromObj (fuel : Nat) (joiSchema : JoiRef)
    (schemasObj : SchemasObj) (schemaMap : SchemaMap)
    (convertedSchemasMap : ShapeMap) :
    Except JErr (String × SchemasObj × SchemaMap × ShapeMap) := do
  -- Already mapped by exact object reference?
  match mapGet schemaMap joiSchema.id with
  | some name => pure (name, schemasObj, schemaMap, convertedSchemasMap)
  | none => do
    -- Convert with joi-to-swagger (`j2s(joiSchema).swagger`)
    let out ← parse fuel (some joiSchema.schema) [] false
    let convertedSchema := outcomeSwagger out
    let str := convertedSchema.map Json.obj
    -- If we already have an identical shape
    match mapGet convertedSchemasMap str with
    | some existingName =>
        pure (existingName, schemasObj,
          mapSet schemaMap joiSchema.id existingName, convertedSchemasMap)
    | none =>
      match convertedSchema with
      | none =>
          -- `convertedSchema.title` on `undefined` is a JS TypeError
          throw (.typeError "cannot read title of undefined")
      | some sw =>
        -- Attempt to use the label from `.label(...)`
        let chosenTitle := getKV sw "title"
        if (match chosenTitle with
            | some t => jsTruthy t
            | none => false) then do
          let chosenName := jsonKeyString (chosenTitle.getD Json.null)
          -- If the label is already used in `schemasObj`
          match getKV schemasObj chosenName with
          | some (some existingSchema) =>
              if Json.obj existingSchema = Json.obj sw then
                -- Exactly the same shape => reuse
                pure (chosenName, schemasObj,
                  mapSet schemaMap joiSchema.id chosenName,
                  mapSet convertedSchemasMap str chosenName)
              else
                -- Shapes differ => raise an error
                throw (.labelConflict chosenName)
          | _ =>
              -- Remove title to avoid duplication in final doc
              let registered := delKV sw "title"
              pure (chosenName, setKV schemasObj chosenName (some registered),
                mapSet schemaMap joiSchema.id chosenName,
                mapSet convertedSchemasMap str chosenName)
        else throw .missingLabel

/-- The input component source (`schemaClass.components()`); every
embedded parameter is a Joi schema, so the JS
`typeof parameter.describe === 'function'` guard holds. -/
structure ComponentSource where
  schemas : List (String × JoiRef) := []
  parameters : List (String × JoiRef) := []

/-- The assembled `components` section. -/
structure SwagComponents where
  schemas : SchemasObj
  parameters : List (String × SwaggerObj)

/-- The body of the parameter-conversion loop of
`buildSwaggerComponents`: compile the parameter's object schema, take
the first property name of the compiled schema (skipping the parameter
when there is none), infer `in` from the `x-` prefix, move the
description onto the envelope, and read the required flag off the
compiled `required` list.  Returns `none` when the parameter is
skipped.  When `parse` returned the sentinel `false`,
`j2s(parameter).swagger` is `undefined` and the very next line
`Object.keys(swaggerParam.properties || {})` is a JS TypeError. -/
def convertParameter (fuel : Nat) (parameter : JoiRef) :
    Except JErr (Option SwaggerObj) := do
  let out ← parse fuel (some parameter.schema) [] false
  match outcomeSwagger out with
  | none =>
      -- `swaggerParam.properties` with `swaggerParam === undefined`
      throw (.typeError "cannot read properties of undefined")
  | some swaggerParam =>
    -- `Object.keys(swaggerParam.properties || {})`
    let propsList : List (String × Json) :=
      match getKV swaggerParam "properties" with
      | some (.obj l) => l
      | _ => []
    match propsList.head? with
    | none => pure none -- `if (!paramName) return`
    | some (paramName, pdef) =>
        if paramName = "" then pure none
        else
          let paramDef : List (String × Json) :=
            match pdef with
            | .obj l => l
            | _ => []
          -- `swaggerParam.required?.includes(paramName) || false`
          let isRequired : Bool :=
            match getKV swaggerParam "required" with
            | some (.arr vs) => vs.contains (.str paramName)
            | _ => false
          -- `paramName.startsWith('x-') ? 'header' : 'query'`
          let paramIn :=
            if strStartsWith paramName "x-" then "header" else "query"
          let paramDescription : Json :=
            match getKV paramDef "description" with
            | some d => if jsTruthy d then d else .str ""
            | none => .str ""
          let paramDef := delKV paramDef "description"
          pure (some
            [("name", .str paramName), ("in", .str paramIn),
             ("required", .bool isRequired), ("schema", .obj paramDef),
             ("description", paramDescription)])

/-- The body of the top-level schemas loop of `buildSwaggerComponents`:
convert the schema, store it under its explicit key, and seed the
identity and shape maps. -/
def schemasFoldStep (fuel : Nat) (st : SchemasObj × SchemaMap × ShapeMap)
    (entry : String × JoiRef) :
    Except JErr (SchemasObj × SchemaMap × ShapeMap) := do
  let (so, sm, cm) := st
  let (key, joiSchema) := entry
  let out ← parse fuel (some joiSchema.schema) [] false
  let convertedSchema := outcomeSwagger out
  pure (setKV so key convertedSchema,
    mapSet sm joiSchema.id key,
    mapSet cm (convertedSchema.map Json.obj) key)

/-- The body of the parameters loop of `buildSwaggerComponents`: store
the converted envelope under the parameter's declared reference name,
skipping parameters whose conversion returned nothing. -/
def paramsFoldStep (fuel : Nat) (po : List (String × SwaggerObj))
    (entry : String × JoiRef) : Except JErr (List (String × SwaggerObj)) := do
  match ← convertParameter fuel entry.2 with
  | some envelope => pure (setKV po entry.1 envelope)
  | none => pure po

/-- `buildSwaggerComponents(schemaClass)`: convert the top-level named
schemas, seeding the identity and shape maps, then convert each declared
parameter into a parameter envelope (`parameterKeyToNameMap` is built
in the source but is local and unused by the returned value). -/
def buildSwaggerComponents (fuel : Nat) (src : ComponentSource) :
    Except JErr (SwagComponents × SchemaMap × ShapeMap) := do
  -- 1. Convert top-level schemas
  let (schemasObj, schemaMap, convertedSchemasMap) ←
    src.schemas.foldlM (schemasFoldStep fuel) ([], [], [])
  -- 2. Convert parameters
  let parametersObj ←
    src.parameters.foldlM (paramsFoldStep fuel) []
  pure ({ schemas := schemasObj, parameters := parametersObj },
    schemaMap, convertedSchemasMap)

/-- One MIME-type entry of a request body's `content` map. -/
structure BodyContent where
  schema : JoiRef

/-- A route's `body` configuration. -/
structure BodyConfig where
  description : Option String := none
  required : Bool := false
  content : Option (List (String × BodyContent)) := none

/-- One MIME-type entry of a response's `content` map. -/
structure RespContent where
  schema : JoiRef
  examples : Option Json := none

/-- One status-coded response configuration. -/
structure ResponseObj where
  description : Json := .null
  content : Option (List (String × RespContent)) := none

/-- One route's method configuration (an empty `method` models the JS
falsy `methodConfig.method` test). -/
structure MethodConfig where
  method : String := ""
  tags : List Json := []
  summary : String := ""
  headers : Option JoiRef := none
  query : Option JoiRef := none
  body : Option BodyConfig := none
  responses : Option (List (String × ResponseObj)) := none

/-- Joi's `schema.describe().keys`: the names of every declared child
key of an object schema, in declaration order (forbidden children
included — `describe` serialises the whole schema). -/
def describeKeys (j : JoiSchema) : List String :=
  j.keys.map (fun p => p.1)

/-- `collectParameters(methodConfig, paramNameToRefName)`: a `$ref` per
header key then per query key, falling back to the raw key when no
declared parameter matches. -/
def collectParameters (mc : MethodConfig)
    (paramNameToRefName : List (String × String)) : List Json :=
  let headerRefs := match mc.headers with
    | some h =>
        (describeKeys h.schema).map (fun k =>
          let refName := (getKV paramNameToRefName k).getD k
          Json.obj [("$ref", .str ("#/components/parameters/" ++ refName))])
    | none => []
  let queryRefs := match mc.query with
    | some q =>
        (describeKeys q.schema).map (fun k =>
          let refName := (getKV paramNameToRefName k).getD k
          Json.obj [("$ref", .str ("#/components/parameters/" ++ refName))])
    | none => []
  headerRefs ++ queryRefs

/-- `buildRequestBody`: `null` without a body/content, else a
`{description, required, content}` object whose entries reference the
resolved schema names. -/
def buildRequestBody (fuel : Nat) (bodyConfig : Option BodyConfig)
    (schemasObj : SchemasObj) (schemaMap : SchemaMap) (shapeMap : ShapeMap) :
    Except JErr (Option SwaggerObj × SchemasObj × SchemaMap × ShapeMap) := do
  match bodyConfig with
  | none => pure (none, schemasObj, schemaMap, shapeMap)
  | some bc =>
    match bc.content with
    | none => pure (none, schemasObj, schemaMap, shapeMap)
    | some entries => do
        let (content, so, sm, cm) ←
          entries.foldlM
            (fun (st : List (String × Json) × SchemasObj × SchemaMap × ShapeMap)
                entry => do
              let (content, so, sm, cm) := st
              let (mimeType, cfg) := entry
              let (schemaName, so, sm, cm) ←
                getSchemaNameFromObj fuel cfg.schema so sm cm
              pure (setKV content mimeType
                (Json.obj [("schema", Json.obj
                  [("$ref", .str ("#/components/schemas/" ++ schemaName))])]),
                so, sm, cm))
            ([], schemasObj, schemaMap, shapeMap)
        pure (some
          [("description", .str (bc.description.getD "")),
           ("required", .bool bc.required),
           ("content", .obj content)], so, sm, cm)

/-- `buildResponses`. -/
def buildResponses (fuel : Nat)
    (responsesConfig : Option (List (String × ResponseObj)))
    (schemasObj : SchemasObj) (schemaMap : SchemaMap) (shapeMap : ShapeMap) :
    Except JErr (List (String × Json) × SchemasObj × SchemaMap × ShapeMap) := do
  match responsesConfig with
  | none => pure ([], schemasObj, schemaMap, shapeMap)
  | some rcs =>
      rcs.foldlM
        (fun (st : List (String × Json) × SchemasObj × SchemaMap × ShapeMap)
            entry => do
          let (responses, so, sm, cm) := st
          let (statusCode, responseObj) := entry
          let (builtContent, so, sm, cm) ←
            match responseObj.content with
            | none =>
                pure (([] : List (String × Json)), so, sm, cm)
            | some ces =>
                ces.foldlM
                  (fun (st2 : List (String × Json) × SchemasObj × SchemaMap ×
                      ShapeMap) ce => do
                    let (bc, so, sm, cm) := st2
                    let (mimeType, subObj) := ce
                    let (schemaName, so, sm, cm) ←
                      getSchemaNameFromObj fuel subObj.schema so sm cm
                    let entryObj : SwaggerObj :=
                      [("schema", Json.obj
                        [("$ref",
                          .str ("#/components/schemas/" ++ schemaName))])]
                    -- If the user included `examples`, attach them
                    let entryObj := match subObj.examples with
                      | some ex =>
                          if jsTruthy ex then setKV entryObj "examples" ex
                          else entryObj
                      | none => entryObj
                    pure (setKV bc mimeType (.obj entryObj), so, sm, cm))
                  ([], so, sm, cm)
          pure (setKV responses statusCode
            (Json.obj [("description", responseObj.description),
                       ("content", .obj builtContent)]), so, sm, cm))
        ([], schemasObj, schemaMap, shapeMap)

/-- `buildSwaggerPaths(schemaClass, swaggerComponents, schemaMap,
convertedSchemasMap)`: note `const [methodKey] = Object.keys(routeDef)`
reads only the first method key of each path's method map. -/
def buildSwaggerPaths (fuel : Nat)
    (paths : List (String × List (String × MethodConfig)))
    (swaggerComponents : SwagComponents) (schemaMap : SchemaMap)
    (shapeMap : ShapeMap) :
    Except JErr (List (String × Json) × SchemasObj × SchemaMap × ShapeMap) := do
  let paramNameToRefName : List (String × String) :=
    swaggerComponents.parameters.foldl
      (fun acc (p : String × SwaggerObj) =>
        match getKV p.2 "name" with
        | some (.str n) => setKV acc n p.1
        | _ => acc)
      []
  paths.foldlM
    (fun (st : List (String × Json) × SchemasObj × SchemaMap × ShapeMap)
        entry => do
      let (sp, so, sm, cm) := st
      let (path, routeDef) := entry
      match routeDef.head? with
      | none => pure (sp, so, sm, cm)
      | some (methodKey, methodConfig) =>
          -- `if (!methodConfig || !methodConfig.method) return`
          if methodConfig.method = "" then pure (sp, so, sm, cm)
          else do
            let parameters := collectParameters methodConfig paramNameToRefName
            let (requestBody, so, sm, cm) ←
              buildRequestBody fuel methodConfig.body so sm cm
            let (responses, so, sm, cm) ←
              buildResponses fuel methodConfig.responses so sm cm
            let entryObj : SwaggerObj :=
              [("tags", .arr methodConfig.tags),
               ("summary", .str methodConfig.summary),
               ("parameters", .arr parameters)] ++
              (match requestBody with
               | some rb => [("requestBody", .obj rb)]
               | none => []) ++
              [("responses", .obj responses)]
            pure (setKV sp path (Json.obj [(methodKey, .obj entryObj)]),
              so, sm, cm))
    ([], swaggerComponents.schemas, schemaMap, shapeMap)

/-- The input to `schemaToSwagger`: the route-schema class's tags, its
(reflection-derived) `paths` map, and its `components()`. -/
structure SchemaClass where
  tags : List Json := []
  paths : List (String × List (String × MethodConfig)) := []
  componentsSrc : ComponentSource := {}

/-- `schemaToSwagger(schemaClass)`: build components, build paths, then
assemble `{definition: {tags, paths, components}}` (an `undefined`
stored schema is rendered as `null` for totality). -/
def schemaToSwagger (fuel : Nat) (sc : SchemaClass) :
    Except JErr SwaggerObj := do
  let (swaggerComponents, schemaMap, convertedSchemasMap) ←
    buildSwaggerComponents fuel sc.componentsSrc
  let (swaggerPaths, schemasFinal, _, _) ←
    buildSwaggerPaths fuel sc.paths swaggerComponents schemaMap
      convertedSchemasMap
  pure [("definition", .obj
    [("tags", .arr sc.tags),
     ("paths", .obj swaggerPaths),
     ("components", .obj
       [("schemas", .obj (schemasFinal.map (fun p =>
          (p.1, match p.2 with
                | some sw => Json.obj sw
                | none => Json.null)))),
        ("parameters", .obj (swaggerComponents.parameters.map (fun p =>
          (p.1, Json.obj p.2))))])])]

/-- A leaf node: just a base record, with no recursive terms. -/
def JoiSchema.ofBase (b : JoiBase) : JoiSchema :=
  .mk b none [] [] [] none []

/-! ### Concrete nodes used by the claim theorems -/

/-- `Joi.number().positive().integer()` (no label). -/
def c5node : JoiSchema :=
  .ofBase { type := "number",
            rules := [{ name := "sign", argSign := some "positive" },
                      { name := "integer" }] }

/-- An explicit `pattern` rule with regex `/^a+$/`. -/
def c1patternRule : Rule := { name := "pattern", argRegex := some "/^a+$/" }

/-- `Joi.string().email().pattern(/^a+$/)`. -/
def c1nodeEmailFirst : JoiSchema :=
  .ofBase { type := "string", rules := [{ name := "email" }, c1patternRule] }

/-- `Joi.string().pattern(/^a+$/).email()`. -/
def c1nodePatternFirst : JoiSchema :=
  .ofBase { type := "string", rules := [c1patternRule, { name := "email" }] }

/-- `Joi.number().default(0)`. -/
def c2node0 : JoiSchema :=
  .ofBase { type := "number", flags := { defaultV := some (.value (.num 0)) } }

/-- A boolean-kind node with an arbitrary default flag. -/
def boolNodeWithDefault (d : Option JsDefault) : JoiSchema :=
  .ofBase { type := "boolean", flags := { defaultV := d } }

/-- A forbidden node that also carries a full swagger override. -/
def c3override : JoiSchema :=
  .ofBase { type := "string", flags := { presence := some "forbidden" },
            metaSwagger := some [("type", Json.str "object")],
            metaSwaggerOverride := true }

/-- An object node whose only child is the overridden forbidden node. -/
def c3parent : JoiSchema :=
  .mk { type := "object" } none [("k", c3override)] [] [] none []

/-- `Joi.string().forbidden()` with no metadata. -/
def c3forbiddenPlain : JoiSchema :=
  .ofBase { type := "string", flags := { presence := some "forbidden" } }

/-- An object node whose only child is a plainly forbidden node. -/
def c3parentPlain : JoiSchema :=
  .mk { type := "object" } none [("k", c3forbiddenPlain)] [] [] none []

/-- A headers schema declaring a single forbidden key `x-secret`. -/
def c3headerNode : JoiSchema :=
  .mk { type := "object" } none [("x-secret", c3forbiddenPlain)] [] [] none []

/-- A node of an unknown kind that is also forbidden. -/
def c9badNode : JoiSchema :=
  .ofBase { type := "notatype", flags := { presence := some "forbidden" } }

/-- A node of an unknown kind with no flags or metadata. -/
def c9plainBad : JoiSchema :=
  .ofBase { type := "notatype" }

/-- A required string child with a description, used as the single
property of a declared parameter. -/
def c8child : JoiSchema :=
  .ofBase { type := "string",
            flags := { presence := some "required",
                       description := some "API key" } }

/-- A declared parameter schema: an object with the single key
`x-api-key`. -/
def c8paramNode : JoiSchema :=
  .mk { type := "object" } none [("x-api-key", c8child)] [] [] none []

/-- `Joi.boolean().label('Foo')`. -/
def c4labeled : JoiSchema :=
  .ofBase { type := "boolean", flags := { label := some "Foo" } }

/-- `Joi.boolean()` with no label. -/
def c4unlabeled : JoiSchema :=
  .ofBase { type := "boolean" }

/-- The `items` value prescribed by the spec for an array node, given
the per-alternative compilation results in declaration order: drop the
`false` results, deduplicate by deep equality, then a single survivor
(or the empty object) inline, two or more under `oneOf`. -/
def specArrayItems (compiled : List (Option SwaggerObj)) : Json :=
  let survivors := uniqJson (compiled.filterMap id)
  match survivors with
  | [] => .obj []
  | [s] => .obj s
  | more => .obj [("oneOf", .arr (more.map .obj))]

/-- `Joi.boolean()`, used as an array item. -/
def c6bool : JoiSchema :=
  .ofBase { type := "boolean" }

/-- `Joi.string().forbidden()`, used as an array item. -/
def c6forbidden : JoiSchema :=
  .ofBase { type := "string", flags := { presence := some "forbidden" } }

/-- An array node with a duplicate item, a forbidden item, and a
`unique` rule. -/
def c6arrNode : JoiSchema :=
  .mk { type := "array", rules := [{ name := "unique" }] } none [] []
    [c6bool, c6forbidden, c6bool] none []

/-- An array-like node carrying a single `length(4)` rule. -/
def c6lenNode : JoiSchema :=
  .ofBase { type := "array",
            rules := [{ name := "length", argLimit := some (.num 4) }] }

/-- An array-like node carrying `min(1)` and `max(9)` rules. -/
def c6minmaxNode : JoiSchema :=
  .ofBase { type := "array",
            rules := [{ name := "min", argLimit := some (.num 1) },
                      { name := "max", argLimit := some (.num 9) }] }

/-- The spec's required-branch marker: the compiled branch schema, with
`x-required: true` attached when the branch's own presence was
required. -/
def specMarked (f : JoiSchema → Option SwaggerObj) (a : JoiSchema) :
    Option SwaggerObj :=
  (f a).map (fun sw =>
    if a.base.flags.presence = some "required" then
      setKV sw "x-required" (.bool true)
    else sw)

/-- The combination step prescribed by the spec for conditional
expansion: drop `false` results, deduplicate by deep equality, wrap the
survivors in the given mode — and an empty surviving list yields the
empty object, never the `false` sentinel. -/
def specCombine (mode : String) (compiledMarked : List (Option SwaggerObj)) :
    SwaggerObj :=
  let survivors := uniqJson (compiledMarked.filterMap id)
  if survivors.length > 0 then [(mode, Json.arr (survivors.map Json.obj))]
  else []

/-- Whether a `when` clause contributes at least one branch to the
flattened candidate list. -/
def contributesBranches (w : WhenClause) : Bool :=
  !(optBranch w.thenS ++ optBranch w.otherwiseS ++
    switchBranches w.switch).isEmpty

/-- A required boolean branch. -/
def c7branchA : JoiSchema :=
  .ofBase { type := "boolean", flags := { presence := some "required" } }

/-- An optional string branch. -/
def c7branchB : JoiSchema :=
  .ofBase { type := "string" }

/-- An `any`-kind node with one `when` clause: `then` required boolean,
`else` string. -/
def c7scenario : JoiSchema :=
  .mk { type := "any" } none [] [] []
    (some [WhenClause.mk (some c7branchA) (some c7branchB) []]) []

/-- A forbidden branch. -/
def c7forbiddenBranch : JoiSchema :=
  .ofBase { type := "string", flags := { presence := some "forbidden" } }

/-- A boolean node whose single `when` branch is forbidden: the
surviving list is empty. -/
def c7empty : JoiSchema :=
  .mk { type := "boolean" } none [] [] []
    (some [WhenClause.mk (some c7forbiddenBranch) none []]) []

/-! ### Lemmas about the object operations -/

theorem getKV_nil {α : Type} (k : String) :
    getKV ([] : List (String × α)) k = none := rfl

theorem getKV_cons {α : Type} (q : String × α) (rest : List (String × α))
    (k : String) :
    getKV (q :: rest) k = if q.1 = k then some q.2 else getKV rest k := by
  simp only [getKV, List.find?]
  by_cases h : q.1 = k <;> simp [h]

theorem getKV_setKV {α : Type} (o : List (String × α)) (k k' : String)
    (v : α) :
    getKV (setKV o k v) k' = if k' = k then some v else getKV o k' := by
  induction o with
  | nil =>
      simp only [setKV, getKV_cons, getKV_nil]
      by_cases h : k = k'
      · simp [h]
      · rw [if_neg h, if_neg (fun hh : k' = k => h hh.symm)]
  | cons q rest ih =>
      simp only [setKV]
      by_cases hq : q.1 = k
      · rw [if_pos hq, getKV_cons, getKV_cons]
        by_cases h : k' = k
        · simp [h]
        · have h1 : ¬ k = k' := fun he => h he.symm
          have h2 : ¬ q.1 = k' := fun he => h (he.symm.trans hq)
          simp [h1, h2, h]
      · rw [if_neg hq, getKV_cons, ih, getKV_cons]
        by_cases hqk : q.1 = k'
        · have h : ¬ k' = k := fun he => hq (hqk.trans he)
          simp [hqk, h]
        · simp [hqk]

theorem getKV_setKV_self {α : Type} (o : List (String × α)) (k : String)
    (v : α) : getKV (setKV o k v) k = some v := by
  simp [getKV_setKV]

theorem getKV_setKV_ne {α : Type} (o : List (String × α)) {k k' : String}
    (v : α) (h : k' ≠ k) : getKV (setKV o k v) k' = getKV o k' := by
  simp [getKV_setKV, h]

theorem getKV_delKV {α : Type} (o : List (String × α)) (k k' : String) :
    getKV (delKV o k) k' = if k' = k then none else getKV o k' := by
  induction o with
  | nil => by_cases h : k' = k <;> simp [delKV, getKV_nil, h]
  | cons q rest ih =>
      simp only [delKV, List.filter_cons] at ih ⊢
      by_cases hq : q.1 = k
      · have : ¬ q.1 ≠ k := fun hc => hc hq
        rw [if_neg (by simpa using this)]
        rw [ih]
        by_cases h : k' = k
        · simp [h]
        · have h2 : ¬ q.1 = k' := fun he => h (he.symm.trans hq)
          simp [h, getKV_cons, h2]
      · rw [if_pos (by simpa using hq)]
        rw [getKV_cons, ih, getKV_cons]
        by_cases hqk : q.1 = k'
        · have h : ¬ k' = k := fun he => hq (hqk.trans he)
          simp [hqk, h]
        · simp [hqk]

theorem mem_setKV {α : Type} {p : String × α} {o : List (String × α)}
    {k : String} {v : α} (h : p ∈ setKV o k v) : p = (k, v) ∨ p ∈ o := by
  induction o with
  | nil => simpa [setKV] using h
  | cons q rest ih =>
      simp only [setKV] at h
      by_cases hq : q.1 = k
      · rw [if_pos hq] at h
        rcases List.mem_cons.mp h with h | h
        · exact .inl h
        · exact .inr (List.mem_cons_of_mem _ h)
      · rw [if_neg hq] at h
        rcases List.mem_cons.mp h with h | h
        · exact .inr (h ▸ List.mem_cons_self _ _)
        · rcases ih h with h | h
          · exact .inl h
          · exact .inr (List.mem_cons_of_mem _ h)

theorem getKV_objAssign_not_mem {dst src : SwaggerObj} {k : String}
    (h : ∀ p ∈ src, p.1 ≠ k) :
    getKV (objAssign dst src) k = getKV dst k := by
  induction src generalizing dst with
  | nil => simp [objAssign]
  | cons q rest ih =>
      have hq : q.1 ≠ k := h q (by simp)
      have hrest : ∀ p ∈ rest, p.1 ≠ k := fun p hp => h p (by simp [hp])
      calc getKV (objAssign dst (q :: rest)) k
          = getKV (objAssign (setKV dst q.1 q.2) rest) k := by
            simp [objAssign]
        _ = getKV (setKV dst q.1 q.2) k := ih hrest
        _ = getKV dst k := getKV_setKV_ne _ _ (fun he => hq he.symm)

/-- Invariant of a `foldl` that only ever `setKV`s keys satisfying a
predicate. -/
theorem foldl_key_invariant {β : Type} (P : String → Prop)
    (f : SwaggerObj → β → SwaggerObj)
    (hf : ∀ acc b p, (∀ q ∈ acc, P q.1) → p ∈ f acc b → P p.1) :
    ∀ (l : List β) (acc : SwaggerObj), (∀ q ∈ acc, P q.1) →
      ∀ p ∈ l.foldl f acc, P p.1 := by
  intro l
  induction l with
  | nil => intro acc hacc p hp; exact hacc p hp
  | cons b rest ih =>
      intro acc hacc p hp
      exact ih (f acc b) (fun q hq => hf acc b q hacc hq) p
        (by simpa using hp)

theorem getMinMax_keys (s : JoiSchema) (suffix : String) :
    ∀ p ∈ getMinMax s suffix,
      p.1 = "min" ++ suffix ∨ p.1 = "max" ++ suffix := by
  unfold getMinMax
  refine foldl_key_invariant
    (fun k => k = "min" ++ suffix ∨ k = "max" ++ suffix) _ ?_ _ _ (by simp)
  intro acc r p hacc hp
  dsimp only at hp
  split_ifs at hp with h1 h2 h3 h4 h5 h6 h7 <;>
    repeat
      first
      | (rcases mem_setKV hp with h | hp; · simp [h])
      | exact hacc p hp

theorem parseValidsAndInvalids_keys (s : JoiSchema) (f : Json → Bool) :
    ∀ p ∈ parseValidsAndInvalids s f, p.1 = "enum" ∨ p.1 = "not" := by
  intro p hp
  unfold parseValidsAndInvalids at hp
  cases hv : s.base.valids with
  | none =>
    cases hi : s.base.invalids with
    | none => simp [hv, hi] at hp
    | some ivs =>
        simp only [hv, hi] at hp
        split_ifs at hp with h
        · rcases mem_setKV hp with h2 | hp
          · simp [h2]
          · simp at hp
        · simp at hp
  | some vs =>
    cases hi : s.base.invalids with
    | none =>
        simp only [hv, hi] at hp
        split_ifs at hp with h
        · rcases mem_setKV hp with h2 | hp
          · simp [h2]
          · simp at hp
        · simp at hp
    | some ivs =>
        simp only [hv, hi] at hp
        split_ifs at hp with h1 h2 h3 <;>
          repeat
            first
            | (rcases mem_setKV hp with h9 | hp; · simp [h9])
            | (simp at hp)

theorem getKV_clearPatternFor_format (fmt : String) (sw : SwaggerObj) :
    getKV (clearPatternFor fmt sw) "format" = some (.str fmt) := by
  unfold clearPatternFor
  rcases h : getKV (setKV sw "format" (.str fmt)) "pattern" with _ | pv
  · simp [h, getKV_setKV_self]
  · by_cases ht : jsTruthy pv
    · simp [h, ht, getKV_delKV, getKV_setKV_self]
    · simp [h, ht, getKV_setKV_self]

theorem getKV_clearPatternFor_ne (fmt : String) (sw : SwaggerObj)
    {k : String} (h1 : k ≠ "format") (h2 : k ≠ "pattern") :
    getKV (clearPatternFor fmt sw) k = getKV sw k := by
  unfold clearPatternFor
  rcases h : getKV (setKV sw "format" (.str fmt)) "pattern" with _ | pv
  · simp [h, getKV_setKV_ne _ _ h1]
  · by_cases ht : jsTruthy pv
    · simp [h, ht, getKV_delKV, h2, getKV_setKV_ne _ _ h1]
    · simp [h, ht, getKV_setKV_ne _ _ h1]

/-! ### Facts about the number extractor -/

theorem number_type_eq (s : JoiSchema) :
    getKV (parseAsTypeNumber s) "type" =
      some (.str (if (findRule s.base.rules "integer").isSome then "integer"
        else "number")) := by
  simp only [parseAsTypeNumber]
  rw [getKV_objAssign_not_mem (fun p hp => by
    rcases parseValidsAndInvalids_keys s isNumberJ p hp with h | h <;>
      simp [h])]
  rcases hmax : findRule s.base.rules "max" with _ | rmax <;>
  rcases hmin : findRule s.base.rules "min" with _ | rmin <;>
  rcases hsign : findRule s.base.rules "sign" with _ | rsign <;>
  rcases hint : (findRule s.base.rules "integer").isSome with _ | _ <;>
    simp [getKV_setKV, getKV_cons] <;>
    split_ifs <;>
    simp [getKV_setKV, getKV_cons]

theorem number_format_eq (s : JoiSchema)
    (h : (findRule s.base.rules "integer").isSome = false) :
    getKV (parseAsTypeNumber s) "format" =
      some (.str (if (findRule s.base.rules "precision").isSome then "double"
        else "float")) := by
  simp only [parseAsTypeNumber]
  rw [getKV_objAssign_not_mem (fun p hp => by
    rcases parseValidsAndInvalids_keys s isNumberJ p hp with h2 | h2 <;>
      simp [h2])]
  rcases hmax : findRule s.base.rules "max" with _ | rmax <;>
  rcases hmin : findRule s.base.rules "min" with _ | rmin <;>
  rcases hsign : findRule s.base.rules "sign" with _ | rsign <;>
    simp [h, getKV_setKV, getKV_cons] <;>
    split_ifs <;>
    simp [getKV_setKV, getKV_cons]

theorem number_min_eq (s : JoiSchema) (r : Rule)
    (hs : findRule s.base.rules "sign" = some r)
    (hp : r.argSign = some "positive")
    (hm : findRule s.base.rules "min" = none) :
    getKV (parseAsTypeNumber s) "minimum" = some (.num 1) := by
  simp only [parseAsTypeNumber]
  rw [getKV_objAssign_not_mem (fun p hp2 => by
    rcases parseValidsAndInvalids_keys s isNumberJ p hp2 with h2 | h2 <;>
      simp [h2])]
  rcases hmax : findRule s.base.rules "max" with _ | rmax <;>
    simp [hs, hp, hm, getKV_setKV, getKV_cons]

theorem number_max_eq (s : JoiSchema) (r : Rule)
    (hs : findRule s.base.rules "sign" = some r)
    (hp : r.argSign = some "negative")
    (hm : findRule s.base.rules "max" = none) :
    getKV (parseAsTypeNumber s) "maximum" = some (.num (-1)) := by
  simp only [parseAsTypeNumber]
  rw [getKV_objAssign_not_mem (fun p hp2 => by
    rcases parseValidsAndInvalids_keys s isNumberJ p hp2 with h2 | h2 <;>
      simp [h2])]
  rcases hmin : findRule s.base.rules "min" with _ | rmin <;>
    simp [hs, hp, hm, getKV_setKV, getKV_cons]

/-! ### Claim theorems -/

/-- **C5.** For every number-kind schema node the Rule Extractor gives:
type "integer" when an `integer` rule is present; otherwise type
"number" with format "double" exactly when a `precision` rule is present
and "float" otherwise; a positive sign rule sets `minimum` to 1 (the
`sign` rule's value, absent an overriding `min` rule) and a negative
sign rule sets `maximum` to -1 (absent an overriding `max` rule); and a
number node with rules `[positive, integer]` and no label compiles
inline to `{type: "integer", minimum: 1}`. -/
theorem claim_C5 :
    (∀ s : JoiSchema, (findRule s.base.rules "integer").isSome →
      getKV (parseAsTypeNumber s) "type" = some (.str "integer")) ∧
    (∀ s : JoiSchema, (findRule s.base.rules "integer").isSome = false →
      getKV (parseAsTypeNumber s) "type" = some (.str "number") ∧
      getKV (parseAsTypeNumber s) "format" =
        some (.str (if (findRule s.base.rules "precision").isSome then
          "double" else "float"))) ∧
    (∀ s : JoiSchema, ∀ r : Rule, findRule s.base.rules "sign" = some r →
      r.argSign = some "positive" → findRule s.base.rules "min" = none →
      getKV (parseAsTypeNumber s) "minimum" = some (.num 1)) ∧
    (∀ s : JoiSchema, ∀ r : Rule, findRule s.base.rules "sign" = some r →
      r.argSign = some "negative" → findRule s.base.rules "max" = none →
      getKV (parseAsTypeNumber s) "maximum" = some (.num (-1))) ∧
    parse 1 (some c5node) [] false =
      .ok (.result [("type", .str "integer"), ("minimum", .num 1)] []) := by
  refine ⟨?_, ?_, number_min_eq, number_max_eq, rfl⟩
  · intro s h
    rw [number_type_eq, if_pos h]
  · intro s h
    refine ⟨?_, number_format_eq s h⟩
    rw [number_type_eq, if_neg (by simp [h])]

/-- **C5 witness**: the universally quantified clauses of `claim_C5`
instantiated at the concrete node `c5node`. -/
theorem claim_C5_witness :
    getKV (parseAsTypeNumber c5node) "type" = some (.str "integer") ∧
    getKV (parseAsTypeNumber c5node) "minimum" = some (.num 1) := by
  constructor
  · exact claim_C5.1 c5node (by rfl)
  · exact claim_C5.2.2.1 c5node
      { name := "sign", argSign := some "positive" } (by rfl) rfl (by rfl)

/-- **C1 counterexample.**  A string node carrying both an `email` rule
and an explicit `pattern` rule compiles — in either declaration order —
to an object that DOES contain a `pattern` field (the explicit `pattern`
rule is applied after `email` has set the format), contradicting the
claim that the output contains no `pattern` field. -/
theorem claim_C1_counterexample :
    parseAsTypeString c1nodeEmailFirst =
      [("type", .str "string"), ("format", .str "email"),
       ("pattern", .str "^a+$")] ∧
    parseAsTypeString c1nodePatternFirst =
      [("type", .str "string"), ("format", .str "email"),
       ("pattern", .str "^a+$")] ∧
    parse 1 (some c1nodeEmailFirst) [] false =
      .ok (.result [("type", .str "string"), ("format", .str "email"),
        ("pattern", .str "^a+$")] []) :=
  ⟨rfl, rfl, rfl⟩

/-- **C1 (amended).** For every string-kind schema node that carries both
an `email` rule and an explicit `pattern` rule (and no competing
`isoDate`/`guid` rule), the Rule Extractor's compiled output has format
"email" AND a `pattern` field equal to the literal regex source of the
explicit rule, regardless of the order in which the two rules were
declared: `email` clears only a pattern previously set by
`alphanum`/`token`, while the explicit `pattern` rule is applied after
all format rules. -/
theorem claim_C1 (s : JoiSchema) (r : Rule)
    (he : (findRule s.base.rules "email").isSome)
    (hp : findRule s.base.rules "pattern" = some r)
    (hiso : (findRule s.base.rules "isoDate").isSome = false)
    (hguid : (findRule s.base.rules "guid").isSome = false) :
    getKV (parseAsTypeString s) "format" = some (.str "email") ∧
    getKV (parseAsTypeString s) "pattern" =
      some (.str (((r.argRegex.getD "").drop 1).dropRight 1)) := by
  constructor
  · simp only [parseAsTypeString, he, hiso, hguid, hp, if_true,
      Bool.false_eq_true, if_false]
    rw [getKV_objAssign_not_mem (fun p hpp => by
          rcases parseValidsAndInvalids_keys s isStringJ p hpp with h | h <;>
            simp [h]),
        getKV_objAssign_not_mem (fun p hpp => by
          rcases getMinMax_keys s "Length" p hpp with h | h <;> simp [h]),
        getKV_setKV_ne _ _ (by decide),
        getKV_clearPatternFor_format]
  · simp only [parseAsTypeString, he, hiso, hguid, hp, if_true,
      Bool.false_eq_true, if_false]
    rw [getKV_objAssign_not_mem (fun p hpp => by
          rcases parseValidsAndInvalids_keys s isStringJ p hpp with h | h <;>
            simp [h]),
        getKV_objAssign_not_mem (fun p hpp => by
          rcases getMinMax_keys s "Length" p hpp with h | h <;> simp [h]),
        getKV_setKV_self]

/-- **C1 witness**: `claim_C1` applied at the concrete node with the
pattern rule declared first. -/
theorem claim_C1_witness :
    getKV (parseAsTypeString c1nodePatternFirst) "format" =
      some (.str "email") ∧
    getKV (parseAsTypeString c1nodePatternFirst) "pattern" =
      some (.str "^a+$") :=
  claim_C1 c1nodePatternFirst c1patternRule (by rfl) (by rfl) (by rfl) (by rfl)

/-- **C2 counterexample.** A node whose default flag is the non-function
value `0` compiles WITHOUT a `default` field (the source's truthiness
test `defaultValue || typeof defaultValue === 'boolean'` rejects `0`),
contradicting the claim that such defaults are emitted. -/
theorem claim_C2_counterexample :
    parse 1 (some c2node0) [] false =
      .ok (.result [("type", .str "number"), ("format", .str "float")] []) ∧
    getKV [("type", Json.str "number"), ("format", Json.str "float")]
      "default" = none :=
  ⟨rfl, rfl⟩

/-- **C2 (amended).** The compiled schema contains a `default` field
exactly when the node's default flag holds a non-function value that is
truthy or a boolean: `false` is emitted, while falsy non-boolean
defaults (`0`, `""`, `null`) are omitted, as are function defaults.
(Stated over the boolean-kind node family; the default-attachment step
of `parse` is shared by every kind.) -/
theorem claim_C2 (fuel : Nat) (d : Option JsDefault) :
    ∃ sw : SwaggerObj,
      parse (fuel + 1) (some (boolNodeWithDefault d)) [] false =
        .ok (.result sw []) ∧
      getKV sw "default" =
        (match d with
         | some (.value v) =>
             if jsTruthy v || (match v with | .bool _ => true | _ => false)
             then some v else none
         | some .func => none
         | none => none) := by
  rcases d with _ | (v | _)
  · exact ⟨[("type", Json.str "boolean")], rfl, rfl⟩
  · by_cases h : (jsTruthy v ||
        (match v with | .bool _ => true | _ => false)) = true
    · refine ⟨[("type", Json.str "boolean"), ("default", v)], ?_, ?_⟩
      · simp [parse, parseBody, parseDispatch, parseAsTypeBoolean,
          boolNodeWithDefault, JoiSchema.ofBase, JoiSchema.base,
          JoiSchema.schemaOverride, JoiSchema.whens, h, setKV]
      · simp [h, getKV_cons]
    · refine ⟨[("type", Json.str "boolean")], ?_, ?_⟩
      · simp [parse, parseBody, parseDispatch, parseAsTypeBoolean,
          boolNodeWithDefault, JoiSchema.ofBase, JoiSchema.base,
          JoiSchema.schemaOverride, JoiSchema.whens, h, setKV]
      · simp [h, getKV_cons, getKV_nil]
  · exact ⟨[("type", Json.str "boolean")], rfl, rfl⟩

/-- **C2 witness**: `claim_C2` at fuel 0 with the default `false` —
the emitted schema carries `default: false`. -/
theorem claim_C2_witness :
    ∃ sw : SwaggerObj,
      parse 1 (some (boolNodeWithDefault (some (.value (.bool false)))))
        [] false = .ok (.result sw []) ∧
      getKV sw "default" = some (.bool false) := by
  have h := claim_C2 0 (some (.value (.bool false)))
  simpa using h

/-! ### Facts about the forbidden sentinel -/

theorem parse_forbidden_sentinel (fuel : Nat) (schema : JoiSchema)
    (existing : Components) (isOvr : Bool)
    (h1 : schema.schemaOverride = none)
    (h2 : schema.base.flags.presence = some "forbidden")
    (h3 : schema.base.metaSwaggerOverride = false ∨
      schema.base.metaSwagger = none)
    (h4 : ∀ n, schema.base.metaClassName = some n →
      compGet existing (schema.base.metaClassTarget.getD "schemas") n = none) :
    parse (fuel + 1) (some schema) existing isOvr = .ok .forbidden := by
  rw [parse, h1]
  unfold parseBody
  rcases hsw : schema.base.metaSwagger with _ | ovr <;>
    rcases hov : schema.base.metaSwaggerOverride with _ | _
  · rcases hcn : schema.base.metaClassName with _ | n
    · simp [hcn, h2, pure, Except.pure]
    · simp [hcn, h4 n hcn, h2, pure, Except.pure]
  · rcases hcn : schema.base.metaClassName with _ | n
    · simp [hcn, h2, pure, Except.pure]
    · simp [hcn, h4 n hcn, h2, pure, Except.pure]
  · rcases hcn : schema.base.metaClassName with _ | n
    · simp [hcn, h2, pure, Except.pure]
    · simp [hcn, h4 n hcn, h2, pure, Except.pure]
  · rcases h3 with h3 | h3
    · exact absurd (hov.symm.trans h3) (by decide)
    · exact absurd (hsw.symm.trans h3) (by simp)

theorem objChildStep_fold_invariant (p : ParseFn) (k : String) :
    ∀ (children : List (String × JoiSchema)) (st : ObjFoldState),
      (∀ c ∈ children, c.1 = k →
        ∀ comps, p (some c.2) comps = .ok .forbidden) →
      getKV st.2.1 k = none → k ∉ st.1 →
      ∀ st', children.foldlM (objChildStep p) st = .ok st' →
        getKV st'.2.1 k = none ∧ k ∉ st'.1 := by
  intro children
  induction children with
  | nil =>
      intro st hbad hp hr st' hfold
      simp only [List.foldlM_nil, pure, Except.pure, Except.ok.injEq] at hfold
      exact hfold ▸ ⟨hp, hr⟩
  | cons c rest ih =>
      intro st hbad hp hr st' hfold
      rw [List.foldlM_cons] at hfold
      cases hstep : objChildStep p st c with
      | error e => rw [hstep] at hfold; simp [Bind.bind, Except.bind] at hfold
      | ok st1 =>
          rw [hstep] at hfold
          simp only [Bind.bind, Except.bind] at hfold
          refine ih st1 (fun c2 h2 => hbad c2 (List.mem_cons_of_mem _ h2))
            ?_ ?_ st' hfold
          all_goals {
            rcases st with ⟨reqs, props, nbr, comb⟩
            rcases c with ⟨key, csch⟩
            by_cases hk : key = k
            · have hforb := hbad (key, csch) (List.mem_cons_self _ _) hk comb
              rw [objChildStep] at hstep
              simp only [hforb, Bind.bind, Except.bind, pure, Except.pure,
                Except.ok.injEq] at hstep
              subst hstep
              first
                | exact hp
                | exact hr
            · rw [objChildStep] at hstep
              cases hp2 : p (some csch) comb with
              | error e =>
                  rw [hp2] at hstep
                  simp [Bind.bind, Except.bind] at hstep
              | ok out =>
                  rw [hp2] at hstep
                  cases out with
                  | forbidden =>
                      simp only [Bind.bind, Except.bind, pure, Except.pure,
                        Except.ok.injEq] at hstep
                      subst hstep
                      first
                        | exact hp
                        | exact hr
                  | result sw comps =>
                      simp only [Bind.bind, Except.bind, pure, Except.pure,
                        Except.ok.injEq] at hstep
                      subst hstep
                      first
                        | exact (getKV_setKV_ne props (Json.obj sw)
                            (fun he => hk he.symm)).trans hp
                        | (split_ifs
                           all_goals simp_all [List.mem_append]
                           all_goals exact fun he => hk he.symm)
          }

theorem objBuildSwagger_facts (schema : JoiSchema) (reqs : List String)
    (props : List (String × Json)) (ap : SwaggerObj) (k : String)
    (hp : getKV props k = none) (hr : k ∉ reqs) :
    (∀ props', getKV (objBuildSwagger schema reqs props ap) "properties" =
      some (.obj props') → getKV props' k = none) ∧
    (∀ reqs', getKV (objBuildSwagger schema reqs props ap) "required" =
      some (.arr reqs') → Json.str k ∉ reqs') := by
  unfold objBuildSwagger
  constructor
  · intro props' hprops'
    split_ifs at hprops' <;>
      try simp [getKV_setKV, getKV_cons, getKV_nil] at hprops'
    all_goals
      (rw [← hprops']; exact hp)
  · intro reqs' hreqs'
    split_ifs at hreqs' <;>
      try simp [getKV_setKV, getKV_cons, getKV_nil] at hreqs'
    all_goals
      (subst hreqs'
       intro hmem
       rcases List.mem_map.mp hmem with ⟨a, ha, hae⟩
       cases hae
       exact hr ha)

theorem forbidden_child_omitted (p : ParseFn) (schema : JoiSchema)
    (existing nbr : Components) (k : String)
    (hbad : ∀ c ∈ schema.keys, c.1 = k →
      ∀ comps, p (some c.2) comps = .ok .forbidden)
    (sw : SwaggerObj) (nc : Components)
    (hok : parseAsTypeObject p schema existing nbr = .ok (sw, nc)) :
    (∀ props, getKV sw "properties" = some (.obj props) →
      getKV props k = none) ∧
    (∀ reqs, getKV sw "required" = some (.arr reqs) → Json.str k ∉ reqs) := by
  unfold parseAsTypeObject at hok
  dsimp only at hok
  cases hfold : schema.keys.foldlM (objChildStep p)
      ([], [], nbr, compMerge (compMerge [] existing) nbr) with
  | error e => rw [hfold] at hok; simp [Bind.bind, Except.bind] at hok
  | ok st =>
      rw [hfold] at hok
      rcases st with ⟨reqs, props, nbr2, comb2⟩
      have hinv := objChildStep_fold_invariant p k schema.keys _
        (by exact hbad) (by simp [getKV_nil]) (by simp) _ hfold
      simp only [Bind.bind, Except.bind] at hok
      by_cases hce : schema.keys.isEmpty = true
      · rw [if_pos hce] at hok
        cases hpat : schema.patterns.foldlM (objPatternStep p)
            ([], nbr2, comb2) with
        | error e => rw [hpat] at hok; simp at hok
        | ok st2 =>
            rw [hpat] at hok
            rcases st2 with ⟨ap, nbr3, comb3⟩
            try dsimp only at hok
            simp only [pure, Except.pure, Except.ok.injEq,
              Prod.mk.injEq] at hok
            obtain ⟨hsw, -⟩ := hok
            exact hsw ▸ objBuildSwagger_facts schema reqs props ap k
              hinv.1 hinv.2
      · rw [if_neg hce] at hok
        try dsimp only at hok
        simp only [pure, Except.pure, Except.ok.injEq,
          Prod.mk.injEq] at hok
        obtain ⟨hsw, -⟩ := hok
        exact hsw ▸ objBuildSwagger_facts schema reqs props [] k
          hinv.1 hinv.2

theorem convertParameter_forbidden (fuel : Nat) (jref : JoiRef)
    (h : parse fuel (some jref.schema) [] false = .ok .forbidden) :
    convertParameter fuel jref =
      .error (.typeError "cannot read properties of undefined") := by
  simp [convertParameter, h, outcomeSwagger, Bind.bind, Except.bind,
    throw, throwThe, MonadExceptOf.throw]

theorem buildSwaggerComponents_forbidden_param_throws (fuel : Nat)
    (r : String) (jref : JoiRef)
    (h : parse fuel (some jref.schema) [] false = .ok .forbidden) :
    buildSwaggerComponents fuel { schemas := [], parameters := [(r, jref)] } =
      .error (.typeError "cannot read properties of undefined") := by
  simp [buildSwaggerComponents, schemasFoldStep, paramsFoldStep,
    convertParameter, h, outcomeSwagger, Bind.bind, Except.bind, pure,
    Except.pure, List.foldlM, throw, throwThe, MonadExceptOf.throw]

/-- **C3 counterexample.** The forbidden-presence check runs only after
the override and known-className short-circuits: a node with
`presence=forbidden` that also carries a swagger override compiles to
the override object — not to the sentinel `false` — and, as an object
child, it DOES appear in the compiled `properties`; moreover, the
route-level parameter list emits a `$ref` named after a forbidden
header key. -/
theorem claim_C3_counterexample :
    parse 1 (some c3override) [] false =
      .ok (.result [("type", Json.str "object")] []) ∧
    parse 2 (some c3parent) [] false =
      .ok (.result [("type", Json.str "object"),
        ("properties", Json.obj [("k", Json.obj [("type", Json.str "object")])]),
        ("additionalProperties", Json.bool false)] []) ∧
    collectParameters
      { method := "get", headers := some ⟨7, c3headerNode⟩ } [] =
      [Json.obj [("$ref", Json.str "#/components/parameters/x-secret")]] :=
  ⟨rfl, rfl, rfl⟩

/-- **C3 (amended).** A node with `presence=forbidden` compiles to the
sentinel `false` provided it is not short-circuited first by a schema
override, a swagger override, or an already-registered className (the
override paths precede the forbidden check); a child compiling to the
sentinel is omitted from the compiled `properties` and `required`
lists; a forbidden declared parameter crashes the component build with
a TypeError — `j2s(parameter).swagger` is `undefined` and the next
line reads `.properties` off it — so no component-parameter entry is
ever produced, but only because the whole build aborts; and
route-level parameter lists are derived from the raw header/query key
names and still emit a `$ref` for a forbidden key. -/
theorem claim_C3 :
    (∀ (fuel : Nat) (schema : JoiSchema) (existing : Components)
      (isOvr : Bool),
      schema.schemaOverride = none →
      schema.base.flags.presence = some "forbidden" →
      (schema.base.metaSwaggerOverride = false ∨
        schema.base.metaSwagger = none) →
      (∀ n, schema.base.metaClassName = some n →
        compGet existing (schema.base.metaClassTarget.getD "schemas") n
          = none) →
      parse (fuel + 1) (some schema) existing isOvr = .ok .forbidden) ∧
    (∀ (p : ParseFn) (schema : JoiSchema) (existing nbr : Components)
      (k : String) (sw : SwaggerObj) (nc : Components),
      (∀ c ∈ schema.keys, c.1 = k →
        ∀ comps, p (some c.2) comps = .ok .forbidden) →
      parseAsTypeObject p schema existing nbr = .ok (sw, nc) →
      (∀ props, getKV sw "properties" = some (.obj props) →
        getKV props k = none) ∧
      (∀ reqs, getKV sw "required" = some (.arr reqs) →
        Json.str k ∉ reqs)) ∧
    (∀ (fuel : Nat) (r : String) (jref : JoiRef),
      parse fuel (some jref.schema) [] false = .ok .forbidden →
      buildSwaggerComponents fuel
        { schemas := [], parameters := [(r, jref)] } =
        .error (.typeError "cannot read properties of undefined")) ∧
    (∀ (m : String) (i : Nat) (b : JoiBase) (k : String)
      (child : JoiSchema) (pm : List (String × String)),
      collectParameters
        { method := m,
          headers := some ⟨i, .mk b none [(k, child)] [] [] none []⟩ } pm =
        [Json.obj [("$ref",
          .str ("#/components/parameters/" ++ ((getKV pm k).getD k)))]]) := by
  refine ⟨?_, ?_, ?_, ?_⟩
  · intro fuel schema existing isOvr h1 h2 h3 h4
    exact parse_forbidden_sentinel fuel schema existing isOvr h1 h2 h3 h4
  · intro p schema existing nbr k sw nc hbad hok
    exact forbidden_child_omitted p schema existing nbr k hbad sw nc hok
  · intro fuel r jref h
    exact buildSwaggerComponents_forbidden_param_throws fuel r jref h
  · intro m i b k child pm
    simp [collectParameters, describeKeys, JoiSchema.keys]

/-- **C3 witness**: `claim_C3` applied at concrete inputs — a plainly
forbidden string node, an object parent holding it, a declared
forbidden parameter (the build aborts with the TypeError), and a
headers schema with a forbidden key. -/
theorem claim_C3_witness :
    parse 1 (some c3forbiddenPlain) [] false = .ok .forbidden ∧
    getKV ([] : List (String × Json)) "k" = none ∧
    buildSwaggerComponents 2
      { schemas := [], parameters := [("Secret", ⟨5, c3forbiddenPlain⟩)] } =
      .error (.typeError "cannot read properties of undefined") ∧
    collectParameters
      { method := "get", headers := some ⟨7, c3headerNode⟩ } [] =
      [Json.obj [("$ref", Json.str "#/components/parameters/x-secret")]] := by
  refine ⟨?_, ?_, ?_, ?_⟩
  · exact claim_C3.1 0 c3forbiddenPlain [] false rfl rfl (Or.inl rfl)
      (fun n h => Option.noConfusion h)
  · have hb := claim_C3.2.1 (fun s c => parse 1 s c false) c3parentPlain
      [] [] "k"
      [("type", Json.str "object"), ("properties", Json.obj []),
        ("additionalProperties", Json.bool false)] []
      (by
        intro c hc hck comps
        have : c = ("k", c3forbiddenPlain) := by
          simpa [c3parentPlain, JoiSchema.keys] using hc
        rw [this]
        rfl)
      (by rfl)
    exact hb.1 [] (by rfl)
  · exact claim_C3.2.2.1 2 "Secret" ⟨5, c3forbiddenPlain⟩ (by rfl)
  · simpa using
      claim_C3.2.2.2 "get" 7 { type := "object" } "x-secret"
        c3forbiddenPlain []

/-! ### Facts about the fatal compile errors -/

theorem parse_unrecognized_type (fuel : Nat) (schema : JoiSchema)
    (existing : Components) (isOvr : Bool) (t : String)
    (h1 : schema.schemaOverride = none)
    (h3 : schema.base.metaSwaggerOverride = false ∨
      schema.base.metaSwagger = none)
    (h4 : ∀ n, schema.base.metaClassName = some n →
      compGet existing (schema.base.metaClassTarget.getD "schemas") n = none)
    (h5 : schema.base.flags.presence ≠ some "forbidden")
    (htype : schema.base.metaBaseType.getD schema.base.type = t)
    (hu : t ∉ (["number", "string", "binary", "date", "boolean",
      "alternatives", "array", "object", "any"] : List String)) :
    parse (fuel + 1) (some schema) existing isOvr =
      .error (.unrecognizedType t) := by
  simp only [List.mem_cons, List.mem_singleton, not_or] at hu
  obtain ⟨u1, u2, u3, u4, u5, u6, u7, u8, u9⟩ := hu
  rw [parse, h1]
  unfold parseBody
  have hdisp : parseDispatch (fun s c => parse fuel s c false)
      (schema.base.metaBaseType.getD schema.base.type) schema existing =
      .error (.unrecognizedType t) := by
    rw [htype]
    simp [parseDispatch, u1, u2, u3, u4, u5, u6, u7, u8, u9]
  rcases hsw : schema.base.metaSwagger with _ | ovr <;>
    rcases hov : schema.base.metaSwaggerOverride with _ | _
  · rcases hcn : schema.base.metaClassName with _ | n
    · simp [hcn, h5, hdisp, Bind.bind, Except.bind]
    · simp [hcn, h4 n hcn, h5, hdisp, Bind.bind, Except.bind]
  · rcases hcn : schema.base.metaClassName with _ | n
    · simp [hcn, h5, hdisp, Bind.bind, Except.bind]
    · simp [hcn, h4 n hcn, h5, hdisp, Bind.bind, Except.bind]
  · rcases hcn : schema.base.metaClassName with _ | n
    · simp [hcn, h5, hdisp, Bind.bind, Except.bind]
    · simp [hcn, h4 n hcn, h5, hdisp, Bind.bind, Except.bind]
  · rcases h3 with h3 | h3
    · exact absurd (hov.symm.trans h3) (by decide)
    · exact absurd (hsw.symm.trans h3) (by simp)

theorem build_propagates_parse_error (fuel : Nat) (key : String)
    (jref : JoiRef) (rest : List (String × JoiRef))
    (ps : List (String × JoiRef)) (e : JErr)
    (h : parse fuel (some jref.schema) [] false = .error e) :
    buildSwaggerComponents fuel
      { schemas := (key, jref) :: rest, parameters := ps } = .error e := by
  simp [buildSwaggerComponents, schemasFoldStep, List.foldlM, h,
    Bind.bind, Except.bind]

/-- **C9 counterexample.** The unrecognized-kind check runs only after
the forbidden-presence check: a node of unknown kind `notatype` that is
also forbidden compiles to the sentinel — no "unrecognized schema type"
error is raised — so the claim's "for every node whose kind has no
extractor" is false as stated. -/
theorem claim_C9_counterexample :
    parse 1 (some c9badNode) [] false = .ok .forbidden :=
  rfl

/-- **C9 (amended).** Compile raises the fatal no-schema error for an
absent input node; for a node whose kind has no extractor it raises the
fatal "unrecognized schema type" error — not a silent pass-through —
provided the node is not short-circuited first by a schema/swagger
override, a registered className, or forbidden presence; and both
errors propagate synchronously to the caller of the build. -/
theorem claim_C9 :
    (∀ (fuel : Nat) (existing : Components) (b : Bool),
      parse (fuel + 1) none existing b = .error .noSchema) ∧
    (∀ (fuel : Nat) (schema : JoiSchema) (existing : Components)
      (isOvr : Bool) (t : String),
      schema.schemaOverride = none →
      (schema.base.metaSwaggerOverride = false ∨
        schema.base.metaSwagger = none) →
      (∀ n, schema.base.metaClassName = some n →
        compGet existing (schema.base.metaClassTarget.getD "schemas") n
          = none) →
      schema.base.flags.presence ≠ some "forbidden" →
      schema.base.metaBaseType.getD schema.base.type = t →
      t ∉ (["number", "string", "binary", "date", "boolean",
        "alternatives", "array", "object", "any"] : List String) →
      parse (fuel + 1) (some schema) existing isOvr =
        .error (.unrecognizedType t)) ∧
    (∀ (fuel : Nat) (key : String) (jref : JoiRef)
      (rest ps : List (String × JoiRef)) (e : JErr),
      parse fuel (some jref.schema) [] false = .error e →
      buildSwaggerComponents fuel
        { schemas := (key, jref) :: rest, parameters := ps } = .error e) := by
  refine ⟨fun _ _ _ => rfl, ?_, ?_⟩
  · intro fuel schema existing isOvr t h1 h3 h4 h5 htype hu
    exact parse_unrecognized_type fuel schema existing isOvr t
      h1 h3 h4 h5 htype hu
  · intro fuel key jref rest ps e h
    exact build_propagates_parse_error fuel key jref rest ps e h

/-- **C9 witness**: `claim_C9` applied at a concrete unknown-kind node
and a component source containing it. -/
theorem claim_C9_witness :
    parse 1 none [] false = .error .noSchema ∧
    parse 1 (some c9plainBad) [] false =
      .error (.unrecognizedType "notatype") ∧
    buildSwaggerComponents 1
      { schemas := [("Bad", ⟨1, c9plainBad⟩)], parameters := [] } =
      .error (.unrecognizedType "notatype") := by
  refine ⟨claim_C9.1 0 [] false, ?_, ?_⟩
  · exact claim_C9.2.1 0 c9plainBad [] false "notatype" rfl (Or.inl rfl)
      (fun n h => Option.noConfusion h) (fun h => Option.noConfusion h)
      rfl (by decide)
  · exact claim_C9.2.2 1 "Bad" ⟨1, c9plainBad⟩ [] [] _
      (claim_C9.2.1 0 c9plainBad [] false "notatype" rfl (Or.inl rfl)
        (fun n h => Option.noConfusion h) (fun h => Option.noConfusion h)
        rfl (by decide))

/-- **C10.** The Document Assembler reads only the first method key of
each path's method map (`const [methodKey] = Object.keys(routeDef)`):
for a path mapped to a first method `get` plus arbitrarily many further
methods, the emitted paths object binds the path to an object whose
only key is the first method — every later method is silently absent,
both from `buildSwaggerPaths` and from the document assembled by
`schemaToSwagger`. -/
theorem claim_C10 (fuel : Nat) (path k1 k2 : String) (mc2 : MethodConfig)
    (rest : List (String × MethodConfig)) :
    buildSwaggerPaths fuel
      [(path, (k1, { method := "get" }) :: (k2, mc2) :: rest)]
      { schemas := [], parameters := [] } [] [] =
    .ok ([(path, Json.obj [(k1, Json.obj
      [("tags", Json.arr []), ("summary", Json.str ""),
       ("parameters", Json.arr []), ("responses", Json.obj [])])])],
      [], [], []) ∧
    schemaToSwagger fuel
      { tags := [],
        paths := [(path, (k1, { method := "get" }) :: (k2, mc2) :: rest)],
        componentsSrc := {} } =
    .ok [("definition", Json.obj
      [("tags", Json.arr []),
       ("paths", Json.obj [(path, Json.obj [(k1, Json.obj
         [("tags", Json.arr []), ("summary", Json.str ""),
          ("parameters", Json.arr []), ("responses", Json.obj [])])])]),
       ("components", Json.obj
         [("schemas", Json.obj []), ("parameters", Json.obj [])])])] :=
  ⟨rfl, rfl⟩

/-! ### Facts about the parameter conversion -/

theorem paramsFold_untouched (fuel : Nat) (r : String) :
    ∀ (entries : List (String × JoiRef))
      (po po' : List (String × SwaggerObj)),
      r ∉ entries.map Prod.fst →
      entries.foldlM (paramsFoldStep fuel) po = .ok po' →
      getKV po' r = getKV po r := by
  intro entries
  induction entries with
  | nil =>
      intro po po' hni hfold
      simp only [List.foldlM_nil, pure, Except.pure, Except.ok.injEq] at hfold
      rw [← hfold]
  | cons e rest ih =>
      intro po po' hni hfold
      rw [List.foldlM_cons] at hfold
      have hr1 : e.1 ≠ r := fun he => hni (by simp [he])
      have hrest : r ∉ rest.map Prod.fst := fun hm => hni (by simp [hm])
      cases hstep : paramsFoldStep fuel po e with
      | error er => rw [hstep] at hfold; simp [Bind.bind, Except.bind] at hfold
      | ok po1 =>
          rw [hstep] at hfold
          simp only [Bind.bind, Except.bind] at hfold
          rw [ih po1 po' hrest hfold]
          unfold paramsFoldStep at hstep
          cases hcp : convertParameter fuel e.2 with
          | error er =>
              rw [hcp] at hstep
              simp [Bind.bind, Except.bind] at hstep
          | ok envOpt =>
              rw [hcp] at hstep
              cases envOpt with
              | none =>
                  simp only [Bind.bind, Except.bind, pure, Except.pure,
                    Except.ok.injEq] at hstep
                  rw [← hstep]
              | some env =>
                  simp only [Bind.bind, Except.bind, pure, Except.pure,
                    Except.ok.injEq] at hstep
                  rw [← hstep]
                  exact getKV_setKV_ne po env (fun he => hr1 he.symm)

theorem convertParameter_single_prop (fuel : Nat) (jref : JoiRef)
    (sw : SwaggerObj) (comps : Components) (name : String)
    (defl : List (String × Json))
    (hp : parse fuel (some jref.schema) [] false = .ok (.result sw comps))
    (hprops : getKV sw "properties" = some (.obj [(name, .obj defl)]))
    (hname : name ≠ "") :
    convertParameter fuel jref = .ok (some
      [("name", .str name),
       ("in", .str (if strStartsWith name "x-" then "header" else "query")),
       ("required", .bool (match getKV sw "required" with
          | some (.arr vs) => vs.contains (.str name)
          | _ => false)),
       ("schema", .obj (delKV defl "description")),
       ("description", (match getKV defl "description" with
          | some d => if jsTruthy d then d else .str ""
          | none => .str ""))]) := by
  unfold convertParameter
  rw [hp]
  simp only [Bind.bind, Except.bind, outcomeSwagger, Option.bind_some,
    Option.some_bind, hprops]
  simp [hname, pure, Except.pure]

/-- **C8.** For a declared component parameter whose compiled object
schema has a single property, the assembled `components.parameters`
entry is an envelope holding that property name, `in` inferred as
"header" exactly when the name has the conventional `x-` prefix (else
"query"), the `required` flag read off the compiled schema's `required`
list, and the property's `description` moved from the nested schema
onto the envelope. -/
theorem claim_C8 (fuel : Nat) (src : ComponentSource) (r : String)
    (jref : JoiRef) (pre post : List (String × JoiRef)) (sw : SwaggerObj)
    (comps : Components) (name : String) (defl : List (String × Json))
    (out : SwagComponents) (sm : SchemaMap) (cm : ShapeMap)
    (hsplit : src.parameters = pre ++ (r, jref) :: post)
    (hpost : r ∉ post.map Prod.fst)
    (hp : parse fuel (some jref.schema) [] false = .ok (.result sw comps))
    (hprops : getKV sw "properties" = some (.obj [(name, .obj defl)]))
    (hname : name ≠ "")
    (hbuild : buildSwaggerComponents fuel src = .ok (out, sm, cm)) :
    getKV out.parameters r = some
      [("name", .str name),
       ("in", .str (if strStartsWith name "x-" then "header" else "query")),
       ("required", .bool (match getKV sw "required" with
          | some (.arr vs) => vs.contains (.str name)
          | _ => false)),
       ("schema", .obj (delKV defl "description")),
       ("description", (match getKV defl "description" with
          | some d => if jsTruthy d then d else .str ""
          | none => .str ""))] := by
  unfold buildSwaggerComponents at hbuild
  cases hsf : src.schemas.foldlM (schemasFoldStep fuel) ([], [], []) with
  | error e => rw [hsf] at hbuild; simp [Bind.bind, Except.bind] at hbuild
  | ok trip =>
      rw [hsf] at hbuild
      rcases trip with ⟨so, sm2, cm2⟩
      simp only [Bind.bind, Except.bind] at hbuild
      cases hpf : src.parameters.foldlM (paramsFoldStep fuel) [] with
      | error e => rw [hpf] at hbuild; simp at hbuild
      | ok po =>
          rw [hpf] at hbuild
          try dsimp only at hbuild
          simp only [pure, Except.pure, Except.ok.injEq,
            Prod.mk.injEq] at hbuild
          obtain ⟨hout, -⟩ := hbuild
          rw [hsplit, List.foldlM_append] at hpf
          cases hpref : pre.foldlM (paramsFoldStep fuel) [] with
          | error e => rw [hpref] at hpf; simp [Bind.bind, Except.bind] at hpf
          | ok po1 =>
              rw [hpref] at hpf
              simp only [Bind.bind, Except.bind] at hpf
              rw [List.foldlM_cons] at hpf
              have hcp := convertParameter_single_prop fuel jref sw comps
                name defl hp hprops hname
              have hstep : paramsFoldStep fuel po1 (r, jref) =
                  .ok (setKV po1 r
                    [("name", .str name),
                     ("in", .str (if strStartsWith name "x-" then "header"
                       else "query")),
                     ("required", .bool (match getKV sw "required" with
                        | some (.arr vs) => vs.contains (.str name)
                        | _ => false)),
                     ("schema", .obj (delKV defl "description")),
                     ("description", (match getKV defl "description" with
                        | some d => if jsTruthy d then d else .str ""
                        | none => .str ""))]) := by
                unfold paramsFoldStep
                rw [hcp]
                rfl
              rw [hstep] at hpf
              simp only [Bind.bind, Except.bind] at hpf
              have huntouched := paramsFold_untouched fuel r post _ _
                hpost hpf
              rw [← hout]
              simp only []
              rw [huntouched, getKV_setKV_self]

/-- **C8 witness**: `claim_C8` applied to a concrete declared parameter
whose single property is the required header key `x-api-key` with a
description: the envelope carries the name, `in: header`, `required:
true`, the schema stripped of its description, and the description. -/
theorem claim_C8_witness :
    buildSwaggerComponents 2
      { schemas := [], parameters := [("ApiKeyParam", ⟨9, c8paramNode⟩)] } =
      .ok ({ schemas := [],
             parameters := [("ApiKeyParam",
               [("name", .str "x-api-key"), ("in", .str "header"),
                ("required", .bool true),
                ("schema", .obj [("type", .str "string")]),
                ("description", .str "API key")])] }, [], []) ∧
    getKV ([("ApiKeyParam",
        [("name", Json.str "x-api-key"), ("in", Json.str "header"),
         ("required", Json.bool true),
         ("schema", Json.obj [("type", Json.str "string")]),
         ("description", Json.str "API key")])] : List (String × SwaggerObj))
      "ApiKeyParam" = some
        [("name", .str "x-api-key"), ("in", .str "header"),
         ("required", .bool true),
         ("schema", .obj [("type", .str "string")]),
         ("description", .str "API key")] := by
  constructor
  · rfl
  · have h := claim_C8 2
        { schemas := [], parameters := [("ApiKeyParam", ⟨9, c8paramNode⟩)] }
        "ApiKeyParam" ⟨9, c8paramNode⟩ [] []
        [("type", Json.str "object"),
         ("properties", Json.obj [("x-api-key", Json.obj
           [("type", Json.str "string"),
            ("description", Json.str "API key")])]),
         ("required", Json.arr [Json.str "x-api-key"]),
         ("additionalProperties", Json.bool false)]
        [] "x-api-key"
        [("type", Json.str "string"), ("description", Json.str "API key")]
        { schemas := [],
          parameters := [("ApiKeyParam",
            [("name", .str "x-api-key"), ("in", .str "header"),
             ("required", .bool true),
             ("schema", .obj [("type", .str "string")]),
             ("description", .str "API key")])] } [] []
        rfl (by simp) rfl rfl (by decide) rfl
    exact h

/-! ### Facts about the reference resolver -/

theorem c4_shape_bind (fuel : Nat) (j : JoiRef) (so : SchemasObj)
    (sm : SchemaMap) (cm : ShapeMap) (name : String) (sw : SwaggerObj)
    (comps : Components)
    (h0 : mapGet sm j.id = none)
    (hp : parse fuel (some j.schema) [] false = .ok (.result sw comps))
    (hshape : mapGet cm (some (Json.obj sw)) = some name) :
    getSchemaNameFromObj fuel j so sm cm =
      .ok (name, so, mapSet sm j.id name, cm) := by
  unfold getSchemaNameFromObj
  rw [h0, hp]
  simp only [Bind.bind, Except.bind, outcomeSwagger, Option.map_some',
    hshape]
  rfl

/-- **C4.** The reference resolver's case analysis: a node already in
the identity map returns its assigned name with the registry untouched,
even at fuel 0 — demonstrating that no recompilation happens; when the
candidate name taken from the compiled schema's title already exists in
the `schemas` map, identical canonical shapes bind the node to the
existing name and reuse it, while different shapes raise the fatal
naming-conflict error; and a compiled ad hoc schema whose output
carries no (truthy) title raises the fatal missing-label error. -/
theorem claim_C4 :
    (∀ (fuel : Nat) (j : JoiRef) (so : SchemasObj) (sm : SchemaMap)
      (cm : ShapeMap) (name : String),
      mapGet sm j.id = some name →
      getSchemaNameFromObj fuel j so sm cm = .ok (name, so, sm, cm)) ∧
    (∀ (fuel : Nat) (j : JoiRef) (so : SchemasObj) (sm : SchemaMap)
      (cm : ShapeMap) (sw ex : SwaggerObj) (comps : Components) (t : Json),
      mapGet sm j.id = none →
      parse fuel (some j.schema) [] false = .ok (.result sw comps) →
      mapGet cm (some (Json.obj sw)) = none →
      getKV sw "title" = some t →
      jsTruthy t = true →
      getKV so (jsonKeyString t) = some (some ex) →
      ex = sw →
      getSchemaNameFromObj fuel j so sm cm =
        .ok (jsonKeyString t, so, mapSet sm j.id (jsonKeyString t),
          mapSet cm (some (Json.obj sw)) (jsonKeyString t))) ∧
    (∀ (fuel : Nat) (j : JoiRef) (so : SchemasObj) (sm : SchemaMap)
      (cm : ShapeMap) (sw ex : SwaggerObj) (comps : Components) (t : Json),
      mapGet sm j.id = none →
      parse fuel (some j.schema) [] false = .ok (.result sw comps) →
      mapGet cm (some (Json.obj sw)) = none →
      getKV sw "title" = some t →
      jsTruthy t = true →
      getKV so (jsonKeyString t) = some (some ex) →
      ex ≠ sw →
      getSchemaNameFromObj fuel j so sm cm =
        .error (.labelConflict (jsonKeyString t))) ∧
    (∀ (fuel : Nat) (j : JoiRef) (so : SchemasObj) (sm : SchemaMap)
      (cm : ShapeMap) (sw : SwaggerObj) (comps : Components),
      mapGet sm j.id = none →
      parse fuel (some j.schema) [] false = .ok (.result sw comps) →
      mapGet cm (some (Json.obj sw)) = none →
      (match getKV sw "title" with
       | some t => jsTruthy t
       | none => false) = false →
      getSchemaNameFromObj fuel j so sm cm = .error .missingLabel) := by
  refine ⟨?_, ?_, ?_, ?_⟩
  · intro fuel j so sm cm name h
    unfold getSchemaNameFromObj
    rw [h]
    rfl
  · intro fuel j so sm cm sw ex comps t h0 hp hshape htitle htruthy
      hexist hsame
    unfold getSchemaNameFromObj
    rw [h0, hp]
    simp only [Bind.bind, Except.bind, outcomeSwagger, Option.map_some',
      hshape, htitle, htruthy]
    simp only [Option.getD_some, if_true]
    rw [hexist]
    simp [hsame, pure, Except.pure]
  · intro fuel j so sm cm sw ex comps t h0 hp hshape htitle htruthy
      hexist hdiff
    unfold getSchemaNameFromObj
    rw [h0, hp]
    simp only [Bind.bind, Except.bind, outcomeSwagger, Option.map_some',
      hshape, htitle, htruthy]
    simp only [Option.getD_some, if_true]
    rw [hexist]
    simp [hdiff, pure, Except.pure, throw, throwThe, MonadExceptOf.throw]
  · intro fuel j so sm cm sw comps h0 hp hshape htitle
    unfold getSchemaNameFromObj
    rw [h0, hp]
    simp only [Bind.bind, Except.bind, outcomeSwagger, Option.map_some',
      hshape]
    simp [htitle, pure, Except.pure, throw, throwThe, MonadExceptOf.throw]

/-- **C4 witness**: `claim_C4` applied at concrete registry states — an
identity-mapped node resolved at fuel 0 (no recompilation), a labeled
boolean node against an identically-shaped registered `Foo`, the same
node against a differently-shaped `Foo`, and an unlabeled node. -/
theorem claim_C4_witness :
    getSchemaNameFromObj 0 ⟨1, c4unlabeled⟩ [] [(1, "Foo")] [] =
      .ok ("Foo", [], [(1, "Foo")], []) ∧
    getSchemaNameFromObj 1 ⟨2, c4labeled⟩
      [("Foo", some [("type", Json.str "boolean"),
        ("title", Json.str "Foo")])] [] [] =
      .ok ("Foo",
        [("Foo", some [("type", Json.str "boolean"),
          ("title", Json.str "Foo")])],
        [(2, "Foo")],
        [(some (Json.obj [("type", Json.str "boolean"),
          ("title", Json.str "Foo")]), "Foo")]) ∧
    getSchemaNameFromObj 1 ⟨3, c4labeled⟩
      [("Foo", some [("type", Json.str "number")])] [] [] =
      .error (.labelConflict "Foo") ∧
    getSchemaNameFromObj 1 ⟨4, c4unlabeled⟩ [] [] [] =
      .error .missingLabel := by
  refine ⟨?_, ?_, ?_, ?_⟩
  · exact claim_C4.1 0 ⟨1, c4unlabeled⟩ [] [(1, "Foo")] [] "Foo" rfl
  · exact claim_C4.2.1 1 ⟨2, c4labeled⟩
      [("Foo", some [("type", Json.str "boolean"),
        ("title", Json.str "Foo")])] [] []
      [("type", Json.str "boolean"), ("title", Json.str "Foo")]
      [("type", Json.str "boolean"), ("title", Json.str "Foo")]
      [] (Json.str "Foo") rfl rfl rfl rfl rfl rfl rfl
  · exact claim_C4.2.2.1 1 ⟨3, c4labeled⟩
      [("Foo", some [("type", Json.str "number")])] [] []
      [("type", Json.str "boolean"), ("title", Json.str "Foo")]
      [("type", Json.str "number")]
      [] (Json.str "Foo") rfl rfl rfl rfl rfl rfl (by decide)
  · exact claim_C4.2.2.2 1 ⟨4, c4unlabeled⟩ [] [] []
      [("type", Json.str "boolean")] [] rfl rfl rfl rfl

/-! ### Facts about the array extractor -/

theorem arrayLoop_spec (p : ParseFn) (existing : Components)
    (f : JoiSchema → Option SwaggerObj) :
    ∀ (items : List JoiSchema) (acc : List SwaggerObj) (nbr : Components),
      (∀ it ∈ items, ∀ comps, p (some it) comps =
        (match f it with
         | none => .ok .forbidden
         | some sw => .ok (.result sw []))) →
      items.foldlM (arrayItemStep p existing) (acc, nbr) =
        .ok (acc ++ (items.map f).filterMap id, nbr) := by
  intro items
  induction items with
  | nil => intro acc nbr h; simp [List.foldlM_nil, pure, Except.pure]
  | cons it rest ih =>
      intro acc nbr h
      rw [List.foldlM_cons]
      have hstep : arrayItemStep p existing (acc, nbr) it =
          .ok (acc ++ (match f it with
            | none => []
            | some sw => [sw]), nbr) := by
        unfold arrayItemStep
        dsimp only
        rw [h it (List.mem_cons_self _ _)]
        rcases f it with _ | sw
        · simp [Bind.bind, Except.bind, pure, Except.pure]
        · simp [Bind.bind, Except.bind, pure, Except.pure, compMerge]
      rw [hstep]
      simp only [Bind.bind, Except.bind]
      rw [ih _ _ (fun it2 hm => h it2 (List.mem_cons_of_mem _ hm))]
      rcases hf : f it with _ | sw <;>
        simp [hf, List.filterMap_cons, List.filterMap_map, Function.comp]

/-- **C6.** The array extractor: under a component-independent
description `f` of how each item alternative compiles (`none` = the
`false` sentinel, with no new components), the compiled array schema
has `type: array`, its `items` field equals the spec's prescription —
alternatives compiled in declaration order, `false` results dropped,
the survivors deduplicated by deep equality, zero/one survivor inlined
(`{}` if none) and two or more wrapped in `oneOf` — and a `unique` rule
sets `uniqueItems: true`; and `getMinMax` maps a `length` rule to equal
`minItems`/`maxItems` and `min`/`max` rules to
`minItems`/`maxItems`. -/
theorem claim_C6 :
    (∀ (p : ParseFn) (schema : JoiSchema) (existing nbr : Components)
      (f : JoiSchema → Option SwaggerObj),
      (∀ it ∈ schema.items, ∀ comps, p (some it) comps =
        (match f it with
         | none => .ok .forbidden
         | some sw => .ok (.result sw []))) →
      ∃ openapi,
        parseAsTypeArray p schema existing nbr = .ok (openapi, nbr) ∧
        getKV openapi "type" = some (.str "array") ∧
        getKV openapi "items" =
          some (specArrayItems (schema.items.map f)) ∧
        ((findRule schema.base.rules "unique").isSome →
          getKV openapi "uniqueItems" = some (.bool true))) ∧
    (∀ (s : JoiSchema) (n : Int),
      s.base.rules = [{ name := "length", argLimit := some (.num n) }] →
      getMinMax s "Items" =
        [("minItems", .num n), ("maxItems", .num n)]) ∧
    (∀ (s : JoiSchema) (a b : Int),
      s.base.rules = [{ name := "min", argLimit := some (.num a) },
                      { name := "max", argLimit := some (.num b) }] →
      getMinMax s "Items" =
        [("minItems", .num a), ("maxItems", .num b)]) := by
  refine ⟨?_, ?_, ?_⟩
  · intro p schema existing nbr f hitems
    unfold parseAsTypeArray
    rw [arrayLoop_spec p existing f schema.items [] nbr hitems]
    simp only [Bind.bind, Except.bind, List.nil_append]
    refine ⟨_, rfl, ?_, ?_, ?_⟩
    · rw [show ∀ o : SwaggerObj, getKV
        (if (findRule schema.base.rules "unique").isSome = true then
          setKV o "uniqueItems" (Json.bool true) else o) "type" =
          getKV o "type"
        from fun o => by split_ifs <;> simp [getKV_setKV]]
      rw [getKV_objAssign_not_mem (fun q hq => by
        rcases getMinMax_keys schema "Items" q hq with h | h <;> simp [h])]
      split_ifs <;> simp [getKV_setKV, getKV_cons]
    · rw [show ∀ o : SwaggerObj, getKV
        (if (findRule schema.base.rules "unique").isSome = true then
          setKV o "uniqueItems" (Json.bool true) else o) "items" =
          getKV o "items"
        from fun o => by split_ifs <;> simp [getKV_setKV]]
      rw [getKV_objAssign_not_mem (fun q hq => by
        rcases getMinMax_keys schema "Items" q hq with h | h <;> simp [h])]
      unfold specArrayItems
      simp only [List.filterMap_map, Function.id_comp]
      rcases hsw : uniqJson (List.filterMap f schema.items) with
          _ | ⟨s1, _ | ⟨s2, srest⟩⟩ <;>
        simp [getKV_setKV, getKV_cons]
    · intro hu
      simp only [hu, if_true]
      simp [getKV_setKV]
  · intro s n h
    unfold getMinMax
    rw [h]
    rfl
  · intro s a b h
    unfold getMinMax
    rw [h]
    rfl

/-- **C6 witness**: `claim_C6` applied to a concrete array node whose
items are a boolean schema, a forbidden schema, and a duplicate of the
boolean schema, with a `unique` rule: the forbidden item is dropped,
the duplicate is deduplicated, the single survivor is inlined, and
`uniqueItems` is set; plus the concrete `length`/`min`/`max`
mappings. -/
theorem claim_C6_witness :
    (∃ openapi,
      parseAsTypeArray (fun s c => parse 1 s c false) c6arrNode [] [] =
        .ok (openapi, []) ∧
      getKV openapi "type" = some (.str "array") ∧
      getKV openapi "items" = some (Json.obj [("type", Json.str "boolean")]) ∧
      getKV openapi "uniqueItems" = some (.bool true)) ∧
    getMinMax c6lenNode "Items" =
      [("minItems", .num 4), ("maxItems", .num 4)] ∧
    getMinMax c6minmaxNode "Items" =
      [("minItems", .num 1), ("maxItems", .num 9)] := by
  refine ⟨?_, claim_C6.2.1 c6lenNode 4 rfl, claim_C6.2.2 c6minmaxNode 1 9 rfl⟩
  obtain ⟨openapi, h1, h2, h3, h4⟩ :=
    claim_C6.1 (fun s c => parse 1 s c false) c6arrNode [] []
      (fun it => if it.base.type = "boolean" then
        some [("type", Json.str "boolean")] else none)
      (by
        intro it hit comps
        simp only [c6arrNode, JoiSchema.items, List.mem_cons,
          List.not_mem_nil, or_false] at hit
        rcases hit with rfl | rfl | rfl <;> rfl)
  refine ⟨openapi, h1, h2, ?_, h4 (by rfl)⟩
  rw [h3]
  rfl

/-- The alternatives fold: under a parser that compiles each branch to
`f` (forbidden when `f` is `none`), the accumulated list is the
marked `filterMap` of the branches and the by-ref components are
untouched. -/
theorem altLoop_spec (p : ParseFn) (existing : Components)
    (f : JoiSchema → Option SwaggerObj) :
    ∀ (alts : List (Option JoiSchema)) (acc : List SwaggerObj)
      (nbr : Components),
      (∀ alt ∈ alts, ∀ comps,
        (match alt with
         | some a => p (some a) comps =
             (match f a with
              | none => .ok .forbidden
              | some sw => .ok (.result sw []))
         | none => False)) →
      alts.foldlM (altFoldStep p existing) (acc, nbr) =
        .ok (acc ++ (alts.filterMap (fun alt => alt.bind (specMarked f))),
          nbr) := by
  intro alts
  induction alts with
  | nil => intro acc nbr h; simp [List.foldlM_nil, pure, Except.pure]
  | cons alt rest ih =>
      intro acc nbr h
      rw [List.foldlM_cons]
      rcases halt : alt with _ | a
      · exact absurd (h alt (by simp [halt]) []) (by rw [halt]; simp)
      · have hstep : altFoldStep p existing (acc, nbr) (some a) =
            .ok (acc ++ (match specMarked f a with
              | none => []
              | some sw => [sw]), nbr) := by
          unfold altFoldStep
          dsimp only
          have hpa := h alt (List.mem_cons_self _ _)
          rw [halt] at hpa
          rw [hpa (compMerge (compMerge [] existing) nbr)]
          rcases hf : f a with _ | sw
          · simp [specMarked, hf, Bind.bind, Except.bind, pure, Except.pure]
          · by_cases hreq : a.base.flags.presence = some "required"
            · simp [specMarked, hf, hreq, Bind.bind, Except.bind, pure,
                Except.pure, compMerge]
            · simp [specMarked, hf, hreq, Bind.bind, Except.bind, pure,
                Except.pure, compMerge]
        rw [hstep]
        simp only [Bind.bind, Except.bind]
        rw [ih _ _ (fun alt2 hm => h alt2 (List.mem_cons_of_mem _ hm))]
        rcases hm : specMarked f a with _ | sw <;>
          simp [List.filterMap_cons, hm]

/-- **C7**: `when`-conditional expansion. (1) For every node whose
`when` clauses each contribute at least one branch and whose branches
compile pointwise to `f` (forbidden exactly when `f` is `none`),
`parseWhens` flattens every then/else/switch branch in order, compiles
each, drops forbidden results, deduplicates by deep equality, marks a
surviving required branch with `x-required: true`, and wraps the
survivors in `anyOf` when more than one clause contributed branches
and `oneOf` otherwise — and `specCombine` yields the empty object for
an empty surviving list, never a `false` sentinel. (2) A concrete
`when` node with a required-boolean `then` and a string `else`
compiles to a two-element `oneOf` with `x-required` on the required
branch. (3) A concrete boolean node whose single branch is forbidden
compiles to the bare boolean schema, not `false`. -/
theorem claim_C7 :
    (∀ (p : ParseFn) (schema : JoiSchema) (ws : List WhenClause)
       (existing nbr : Components) (f : JoiSchema → Option SwaggerObj),
       schema.whens = some ws →
       (∀ w ∈ ws, contributesBranches w = true) →
       (∀ alt ∈ whenBranches ws, ∀ comps,
         (match alt with
          | some a => p (some a) comps =
              (match f a with
               | none => .ok .forbidden
               | some sw => .ok (.result sw []))
          | none => False)) →
       parseWhens p schema existing nbr =
         .ok (specCombine
           (if (ws.filter contributesBranches).length > 1 then "anyOf"
             else "oneOf")
           ((whenBranches ws).map (fun b => b.bind (specMarked f))), nbr)) ∧
    parse 2 (some c7scenario) [] false =
      .ok (.result
        [("oneOf", Json.arr
          [Json.obj [("type", Json.str "boolean"),
                     ("x-required", Json.bool true)],
           Json.obj [("type", Json.str "string")]])] []) ∧
    parse 2 (some c7empty) [] false =
      .ok (.result [("type", Json.str "boolean")] []) := by
  refine ⟨?_, rfl, rfl⟩
  intro p schema ws existing nbr f hw hcontrib hb
  have hfilter : ws.filter contributesBranches = ws :=
    List.filter_eq_self.mpr hcontrib
  rw [hfilter]
  unfold parseWhens schemaForAlternatives
  rw [hw]
  simp only [Option.getD_some]
  rw [altLoop_spec p existing f (whenBranches ws) [] nbr hb]
  simp only [Bind.bind, Except.bind, List.nil_append]
  unfold specCombine
  simp only [List.filterMap_map, Function.id_comp]
  rfl

/-- **C7 witness**: `claim_C7` applied to the concrete `when` node
with a required-boolean `then` branch and a string `else` branch: a
two-element `oneOf` with the `x-required` marker on the required
branch, and untouched by-ref components. -/
theorem claim_C7_witness :
    parseWhens (fun s c => parse 1 s c false) c7scenario [] [] =
      .ok ([("oneOf", Json.arr
        [Json.obj [("type", Json.str "boolean"),
                   ("x-required", Json.bool true)],
         Json.obj [("type", Json.str "string")]])], []) := by
  have h := claim_C7.1 (fun s c => parse 1 s c false) c7scenario
      [WhenClause.mk (some c7branchA) (some c7branchB) []] [] []
      (fun a => if a.base.type = "boolean" then
        some [("type", Json.str "boolean")]
      else
        some [("type", Json.str "string")])
      rfl
      (by intro w hw; simp only [List.mem_singleton] at hw; subst hw; rfl)
      (by
        intro alt halt comps
        rw [show whenBranches
              [WhenClause.mk (some c7branchA) (some c7branchB) []] =
            [some c7branchA, some c7branchB] from rfl] at halt
        simp only [List.mem_cons, List.not_mem_nil, or_false] at halt
        rcases halt with rfl | rfl <;> rfl)
  rw [h]
  rfl

end JoiFul
